import Mathlib

/-!
# Verification of the pi-mono streaming AI layer

Shallow embedding of the canonical message/event model, the OpenAI Responses
provider adapter (`streamOpenAIResponses`, `mapStopReason`, `convertMessages`
in `packages/ai/src/providers/openai-responses.ts`) and the dispatcher helpers
(`mapOptionsForApi`, `getGoogleBudget` in `packages/ai/src/stream.ts`),
together with theorems settling the frozen specification claims.

JavaScript numbers are modelled as `Int` (token counts) and `Rat` (prices and
costs); JSON values as the inductive `Json`; fallible operations as `Option`
or `Except`.
-/

namespace PiMono

/-- Structured JSON values, the model of JavaScript objects produced by
`JSON.parse` and by the incremental parser. Numbers are restricted to
integers, which covers every value the verified scenarios exercise. -/
inductive Json where
  | null : Json
  | bool (b : Bool) : Json
  | num (n : Int) : Json
  | str (s : String) : Json
  | arr (elems : List Json) : Json
  | obj (fields : List (String × Json)) : Json
deriving Repr

/-- Escape one character for JSON string output. -/
def escapeChar (c : Char) : String :=
  if c = '"' then "\\\"" else if c = '\\' then "\\\\" else String.singleton c

/-- Escape a string for JSON output. -/
def escapeString (s : String) : String :=
  String.join (s.toList.map escapeChar)

mutual

/-- Model of `JSON.stringify` on structured values. -/
def Json.render : Json → String
  | .null => "null"
  | .bool b => if b then "true" else "false"
  | .num n => toString n
  | .str s => "\"" ++ escapeString s ++ "\""
  | .arr elems => "[" ++ Json.renderElems elems ++ "]"
  | .obj fields => "\x7b" ++ Json.renderFields fields ++ "\x7d"
termination_by structural j => j

/-- Comma-separated rendering of array elements. -/
def Json.renderElems : List Json → String
  | [] => ""
  | [x] => Json.render x
  | x :: y :: xs => Json.render x ++ "," ++ Json.renderElems (y :: xs)
termination_by structural l => l

/-- Comma-separated rendering of object fields. -/
def Json.renderFields : List (String × Json) → String
  | [] => ""
  | [(k, v)] => "\"" ++ escapeString k ++ "\":" ++ Json.render v
  | (k, v) :: y :: xs =>
      "\"" ++ escapeString k ++ "\":" ++ Json.render v ++ "," ++ Json.renderFields (y :: xs)
termination_by structural l => l

end

/-- Skip JSON whitespace. -/
def skipWs : List Char → List Char
  | c :: cs => if c = ' ' ∨ c = '\n' ∨ c = '\t' ∨ c = '\r' then skipWs cs else c :: cs
  | [] => []

/-- Is `c` an ASCII decimal digit? -/
def isDigitChar (c : Char) : Bool := '0' ≤ c ∧ c ≤ '9'

/-- Consume a run of decimal digits, accumulating their value. -/
def takeDigits (acc : Nat) : List Char → Nat × List Char
  | c :: cs =>
      if isDigitChar c then takeDigits (acc * 10 + (c.toNat - '0'.toNat)) cs
      else (acc, c :: cs)
  | [] => (acc, [])

/-- Strict JSON string-body scanner: consumes characters after an opening
quote up to the closing quote, handling the basic escapes. Fails (like
`JSON.parse`) when the input ends before the closing quote. -/
def parseStringBody (acc : String) : List Char → Option (String × List Char)
  | [] => none
  | '"' :: rest => some (acc, rest)
  | '\\' :: e :: rest =>
      if e = '"' then parseStringBody (acc.push '"') rest
      else if e = '\\' then parseStringBody (acc.push '\\') rest
      else if e = '/' then parseStringBody (acc.push '/') rest
      else if e = 'n' then parseStringBody (acc.push '\n') rest
      else if e = 't' then parseStringBody (acc.push '\t') rest
      else if e = 'r' then parseStringBody (acc.push '\r') rest
      else none
  | '\\' :: [] => none
  | c :: rest => parseStringBody (acc.push c) rest

mutual

/-- Strict JSON value parser (model of `JSON.parse`), fueled. -/
def parseValue (fuel : Nat) (cs : List Char) : Option (Json × List Char) :=
  match fuel with
  | 0 => none
  | fuel + 1 =>
    match skipWs cs with
    | [] => none
    | 'n' :: 'u' :: 'l' :: 'l' :: rest => some (.null, rest)
    | 't' :: 'r' :: 'u' :: 'e' :: rest => some (.bool true, rest)
    | 'f' :: 'a' :: 'l' :: 's' :: 'e' :: rest => some (.bool false, rest)
    | '"' :: rest => (parseStringBody "" rest).map (fun p => (.str p.1, p.2))
    | '[' :: rest => parseArrayItems fuel true [] rest
    | '\x7b' :: rest => parseObjectFields fuel true [] rest
    | '-' :: c :: rest =>
        if isDigitChar c then
          let p := takeDigits (c.toNat - '0'.toNat) rest
          some (.num (-(p.1 : Int)), p.2)
        else none
    | c :: rest =>
        if isDigitChar c then
          let p := takeDigits (c.toNat - '0'.toNat) rest
          some (.num (p.1 : Int), p.2)
        else none
termination_by structural fuel

/-- Strict parser for the items of a JSON array, after the opening bracket. -/
def parseArrayItems (fuel : Nat) (first : Bool) (acc : List Json) :
    List Char → Option (Json × List Char) :=
  fun cs =>
  match fuel with
  | 0 => none
  | fuel + 1 =>
    match skipWs cs with
    | ']' :: rest => if first then some (.arr acc.reverse, rest) else none
    | cs' =>
      match parseValue fuel cs' with
      | none => none
      | some (v, rest) =>
        match skipWs rest with
        | ',' :: rest' => parseArrayItems fuel false (v :: acc) rest'
        | ']' :: rest' => some (.arr (v :: acc).reverse, rest')
        | _ => none
termination_by structural fuel

/-- Strict parser for the fields of a JSON object, after the opening brace. -/
def parseObjectFields (fuel : Nat) (first : Bool) (acc : List (String × Json)) :
    List Char → Option (Json × List Char) :=
  fun cs =>
  match fuel with
  | 0 => none
  | fuel + 1 =>
    match skipWs cs with
    | '\x7d' :: rest => if first then some (.obj acc.reverse, rest) else none
    | '"' :: rest =>
      match parseStringBody "" rest with
      | none => none
      | some (key, rest') =>
        match skipWs rest' with
        | ':' :: rest'' =>
          match parseValue fuel rest'' with
          | none => none
          | some (v, rest3) =>
            match skipWs rest3 with
            | ',' :: rest4 => parseObjectFields fuel false ((key, v) :: acc) rest4
            | '\x7d' :: rest4 => some (.obj ((key, v) :: acc).reverse, rest4)
            | _ => none
        | _ => none
    | _ => none
termination_by structural fuel

end

/-- Model of the JavaScript `JSON.parse`: strict parse of a complete JSON
document, failing on malformed or trailing input. -/
def jsonParse (s : String) : Option Json :=
  match parseValue (s.length + 2) s.toList with
  | some (v, rest) => if skipWs rest = [] then some v else none
  | none => none

/-- Tolerant string scanner: returns the accumulated text and `some rest`
when the closing quote was found, `none` when the input ended first. -/
def scanStringTolerant (acc : String) : List Char → String × Option (List Char)
  | [] => (acc, none)
  | '"' :: rest => (acc, some rest)
  | '\\' :: e :: rest =>
      if e = '"' then scanStringTolerant (acc.push '"') rest
      else if e = '\\' then scanStringTolerant (acc.push '\\') rest
      else if e = 'n' then scanStringTolerant (acc.push '\n') rest
      else scanStringTolerant (acc.push e) rest
  | '\\' :: [] => (acc, none)
  | c :: rest => scanStringTolerant (acc.push c) rest

mutual

/-- Modelled from the spec: the Incremental JSON Parser of
`packages/ai/src/utils/json-parse.ts`, which is not among the provided
sources. Per §4.3 of the spec it turns an arbitrary prefix of a JSON
document into a best-effort structured value: an unterminated string is
truncated at the cut point, unterminated arrays/objects are closed at their
current nesting depth, a dangling comma or partial key/value pair is
dropped, and it never fails (the empty input yields an empty object). -/
def streamValue (fuel : Nat) (cs : List Char) : Json × List Char :=
  match fuel with
  | 0 => (.obj [], [])
  | fuel + 1 =>
    match skipWs cs with
    | [] => (.obj [], [])
    | 'n' :: 'u' :: 'l' :: 'l' :: rest => (.null, rest)
    | 't' :: 'r' :: 'u' :: 'e' :: rest => (.bool true, rest)
    | 'f' :: 'a' :: 'l' :: 's' :: 'e' :: rest => (.bool false, rest)
    | '"' :: rest =>
        match scanStringTolerant "" rest with
        | (s, some rest') => (.str s, rest')
        | (s, none) => (.str s, [])
    | '[' :: rest => streamArrayItems fuel [] rest
    | '\x7b' :: rest => streamObjectFields fuel [] rest
    | '-' :: c :: rest =>
        if isDigitChar c then
          let p := takeDigits (c.toNat - '0'.toNat) rest
          (.num (-(p.1 : Int)), p.2)
        else (.obj [], rest)
    | c :: rest =>
        if isDigitChar c then
          let p := takeDigits (c.toNat - '0'.toNat) rest
          (.num (p.1 : Int), p.2)
        else (.obj [], c :: rest)
termination_by structural fuel

/-- Tolerant array-items parser: closes the array at end of input. -/
def streamArrayItems (fuel : Nat) (acc : List Json) (cs : List Char) :
    Json × List Char :=
  match fuel with
  | 0 => (.arr acc.reverse, [])
  | fuel + 1 =>
    match skipWs cs with
    | [] => (.arr acc.reverse, [])
    | ']' :: rest => (.arr acc.reverse, rest)
    | cs' =>
      let p := streamValue fuel cs'
      match skipWs p.2 with
      | ',' :: rest' => streamArrayItems fuel (p.1 :: acc) rest'
      | ']' :: rest' => (.arr (p.1 :: acc).reverse, rest')
      | _ => (.arr (p.1 :: acc).reverse, [])
termination_by structural fuel

/-- Tolerant object-fields parser: closes the object at end of input and
drops a dangling partial key/value pair. -/
def streamObjectFields (fuel : Nat) (acc : List (String × Json)) (cs : List Char) :
    Json × List Char :=
  match fuel with
  | 0 => (.obj acc.reverse, [])
  | fuel + 1 =>
    match skipWs cs with
    | [] => (.obj acc.reverse, [])
    | '\x7d' :: rest => (.obj acc.reverse, rest)
    | '"' :: rest =>
      match scanStringTolerant "" rest with
      | (_, none) => (.obj acc.reverse, [])
      | (key, some rest') =>
        match skipWs rest' with
        | ':' :: rest'' =>
          match skipWs rest'' with
          | [] => (.obj acc.reverse, [])
          | cs'' =>
            let p := streamValue fuel cs''
            match skipWs p.2 with
            | ',' :: rest3 => streamObjectFields fuel ((key, p.1) :: acc) rest3
            | '\x7d' :: rest3 => (.obj ((key, p.1) :: acc).reverse, rest3)
            | _ => (.obj ((key, p.1) :: acc).reverse, [])
        | _ => (.obj acc.reverse, [])
    | _ => (.obj acc.reverse, [])
termination_by structural fuel

end

/-- Modelled from the spec (§4.3): `parseStreamingJson` from
`packages/ai/src/utils/json-parse.ts` (not among the provided sources) —
best-effort parse of a JSON-text prefix; total, never fails. -/
def parseStreamingJson (s : String) : Json :=
  (streamValue (s.length + 2) s.toList).1

/-! ## Canonical model (packages/ai/src/types.ts) -/

/-- Canonical stop reasons (`StopReason` in types.ts). -/
inductive StopReason where
  | stop | length | toolUse | error | aborted
deriving Repr, DecidableEq

/-- Per-category dollar cost (`Usage.cost` in types.ts); JavaScript floats
are modelled as rationals. -/
structure Cost where
  input : Rat
  output : Rat
  cacheRead : Rat
  cacheWrite : Rat
  total : Rat
deriving Repr, DecidableEq

/-- Canonical token accounting (`Usage` in types.ts). -/
structure Usage where
  input : Int
  output : Int
  cacheRead : Int
  cacheWrite : Int
  cost : Cost
deriving Repr, DecidableEq

/-- The all-zero cost record. -/
def zeroCost : Cost := ⟨0, 0, 0, 0, 0⟩

/-- The all-zero usage record every assistant message starts with. -/
def zeroUsage : Usage := ⟨0, 0, 0, 0, zeroCost⟩

/-- Per-model price table (`Model.cost`, $ per million tokens). -/
structure PriceTable where
  input : Rat
  output : Rat
  cacheRead : Rat
  cacheWrite : Rat
deriving Repr, DecidableEq

/-- The closed vendor-API discriminant (`Api` in types.ts). -/
inductive Api where
  | anthropicMessages | openaiCompletions | openaiResponses | openaiCodex | googleGenerativeAI
deriving Repr, DecidableEq

/-- The fields of `Model` (types.ts) the embedded code reads. JavaScript
`model.input.includes("image")` is modelled by the Boolean
`supportsImageInput`. -/
structure ModelInfo where
  id : String
  name : String
  api : Api
  provider : String
  reasoning : Bool
  supportsImageInput : Bool
  cost : PriceTable
  contextWindow : Int
  maxTokens : Int
deriving Repr

/-! ## Vendor wire items (OpenAI Responses API shapes the adapter reads) -/

/-- A part of a vendor `message` item's content: `output_text` or `refusal`. -/
inductive MsgPart where
  | outputText (text : String)
  | refusal (refusal : String)
deriving Repr, DecidableEq

/-- A vendor output item (`ResponseReasoningItem`, `ResponseOutputMessage`
or `ResponseFunctionToolCall`). Reasoning summary parts are modelled by
their text. -/
inductive VendorItem where
  | reasoning (id : String) (summary : List String) (encryptedContent : Option String)
  | message (id : String) (content : List MsgPart)
  | functionCall (id : String) (callId : String) (name : String) (arguments : String)
deriving Repr, DecidableEq

/-- Canonical content blocks (`TextContent`, `ThinkingContent`, `ToolCall`
in types.ts), extended exactly as the adapter extends them: the streaming
tool-call block additionally carries the `partialJson` accumulator, whose
presence in a JavaScript object is modelled by `Option`. A thinking block's
`thinkingSignature` is `JSON.stringify` of the completed vendor reasoning
item; since `JSON.parse` is its exact inverse on those items, the
stringify/parse round trip is modelled as storing the item itself. -/
inductive Block where
  | text (text : String) (textSignature : Option String)
  | thinking (thinking : String) (thinkingSignature : Option VendorItem)
  | toolCall (id : String) (name : String) (arguments : Json) (partialJson : Option String)
deriving Repr

/-- `b.type === "toolCall"`. -/
def Block.isToolCall : Block → Bool
  | .toolCall _ _ _ _ => true
  | _ => false

/-- One assistant turn (`AssistantMessage` in types.ts). The `api` field is
the constant `"openai-responses"` for this adapter and the timestamp is not
modelled. -/
structure AssistantMsg where
  content : List Block
  provider : String
  model : String
  usage : Usage
  stopReason : StopReason
  errorMessage : Option String
deriving Repr

/-- A user-content or tool-result part (text or image). -/
inductive UserPart where
  | text (text : String)
  | image (data : String) (mimeType : String)
deriving Repr, DecidableEq

/-- User message content: a bare string or a list of parts. -/
inductive UserContent where
  | str (s : String)
  | parts (parts : List UserPart)
deriving Repr, DecidableEq

/-- Canonical `Message` variants (types.ts). -/
inductive Message where
  | user (content : UserContent)
  | assistant (msg : AssistantMsg)
  | toolResult (toolCallId : String) (toolName : String)
      (content : List UserPart) (isError : Bool)
deriving Repr

/-- A declared tool (`Tool` in types.ts); `parameters` is its JSON-Schema
shaped parameter spec. -/
structure ToolDef where
  name : String
  description : String
  parameters : Json
deriving Repr

/-- The caller-owned `Context`. -/
structure Context where
  systemPrompt : Option String
  messages : List Message
  tools : Option (List ToolDef)
deriving Repr

/-! ## Vendor stream events and canonical emitted events -/

/-- Vendor `response.status` values (`OpenAI.Responses.ResponseStatus`). -/
inductive RespStatus where
  | completed | incomplete | failed | cancelled | inProgress | queued
deriving Repr, DecidableEq

/-- The usage object of a `response.completed` event; absent numeric fields
are `none` (the code defaults them with `|| 0`). `cachedTokens` is
`input_tokens_details?.cached_tokens`. -/
structure RawUsage where
  inputTokens : Option Int
  outputTokens : Option Int
  cachedTokens : Option Int
deriving Repr, DecidableEq

/-- JavaScript `x || 0` on a possibly-absent number. -/
def orZero : Option Int → Int
  | some n => n
  | none => 0

/-- The vendor stream events `streamOpenAIResponses` dispatches on. -/
inductive VendorEvent where
  | outputItemAdded (item : VendorItem)
  | summaryPartAdded (text : String)
  | summaryTextDelta (delta : String)
  | summaryPartDone
  | contentPartAdded (part : MsgPart)
  | outputTextDelta (delta : String)
  | refusalDelta (delta : String)
  | funcArgsDelta (delta : String)
  | outputItemDone (item : VendorItem)
  | completed (status : Option RespStatus) (usage : Option RawUsage)
  | errorEvent (code : String) (message : String)
  | failed
deriving Repr

/-- Canonical events the adapter pushes (`AssistantMessageEvent` in
types.ts). The `partial` snapshots all alias the one in-flight message the
adapter owns, so they are not replicated here; the terminal events carry the
final message. `contentIndex` is the JavaScript `blocks.length - 1`, an
`Int` since it is `-1` on an empty block list. -/
inductive EmEvent where
  | start
  | thinkingStart (contentIndex : Int)
  | thinkingDelta (contentIndex : Int) (delta : String)
  | thinkingEnd (contentIndex : Int) (content : String)
  | textStart (contentIndex : Int)
  | textDelta (contentIndex : Int) (delta : String)
  | textEnd (contentIndex : Int) (content : String)
  | toolcallStart (contentIndex : Int)
  | toolcallDelta (contentIndex : Int) (delta : String)
  | toolcallEnd (contentIndex : Int) (toolCall : Block)
  | done (reason : StopReason) (message : AssistantMsg)
  | errorEv (reason : StopReason) (error : AssistantMsg)
deriving Repr

/-! ## Spec-modelled collaborators of the adapter -/

/-- Look up a key in a JSON object's field list. -/
def Json.lookup (key : String) : Json → Option Json
  | .obj fields => (fields.find? (fun kv => kv.1 = key)).map (fun kv => kv.2)
  | _ => none

/-- The `type` string a JSON-Schema property declares for `key`, if any. -/
def schemaPropType (schema : Json) (key : String) : Option String :=
  match ((schema.lookup "properties").bind (Json.lookup key)).bind (Json.lookup "type") with
  | some (.str t) => some t
  | _ => none

/-- Coerce a parsed value towards a declared schema type when the two are
compatible but not identical (e.g. a numeric string where a number is
declared); otherwise return the value unchanged. -/
def coerceValue (declaredType : String) (v : Json) : Json :=
  match declaredType, v with
  | "number", .str s => (match jsonParse s with | some (.num n) => .num n | _ => v)
  | "integer", .str s => (match jsonParse s with | some (.num n) => .num n | _ => v)
  | "boolean", .str "true" => .bool true
  | "boolean", .str "false" => .bool false
  | "string", .num n => .str (toString n)
  | _, _ => v

/-- Modelled from the spec (§4.6): `validateToolArguments` of
`packages/ai/src/utils/validation.ts`, which is not among the provided
sources. It validates/coerces the parsed arguments against the tool's
declared JSON-Schema parameter spec and never aborts: on irrecoverable
mismatch it returns the best partially-validated object it can produce. -/
def validateToolArguments (tool : ToolDef) (args : Json) : Json :=
  match args with
  | .obj fields =>
      .obj (fields.map (fun kv =>
        match schemaPropType tool.parameters kv.1 with
        | some t => (kv.1, coerceValue t kv.2)
        | none => kv))
  | _ => args

/-- Modelled from the spec (§4.4): `calculateCost` of
`packages/ai/src/models.ts`, which is not among the provided sources. It
prices each of the four token categories at the model's $-per-million rate
and sets `cost.total` to the sum of the four category costs; the token
counts themselves are not touched. -/
def calculateCost (m : ModelInfo) (u : Usage) : Usage :=
  let ci : Rat := (u.input : Rat) * m.cost.input / 1000000
  let co : Rat := (u.output : Rat) * m.cost.output / 1000000
  let cr : Rat := (u.cacheRead : Rat) * m.cost.cacheRead / 1000000
  let cw : Rat := (u.cacheWrite : Rat) * m.cost.cacheWrite / 1000000
  { u with cost := ⟨ci, co, cr, cw, ci + co + cr + cw⟩ }

/-! ## The OpenAI Responses adapter state machine -/

/-- `mapStopReason` (openai-responses.ts): vendor `response.status` to
canonical stop reason; an absent status maps to `stop`, and the "wonky"
`in_progress`/`queued` statuses also map to `stop`. -/
def mapStopReason : Option RespStatus → StopReason
  | none => .stop
  | some .completed => .stop
  | some .incomplete => .length
  | some .failed => .error
  | some .cancelled => .error
  | some .inProgress => .stop
  | some .queued => .stop

/-- The adapter-local mutable state of one `streamOpenAIResponses` run: the
in-flight message's blocks and usage/stop fields, the vendor item currently
being mirrored (`currentItem`) and the open-block cursor (`currentBlock`,
modelled as the index of the content entry the cursor aliases — the source
keeps an object reference to the block it appended). -/
structure AdapterState where
  content : List Block
  curItem : Option VendorItem
  curBlock : Option Nat
  usage : Usage
  stopReason : StopReason
deriving Repr

/-- The state at adapter start: empty content, zero usage, reason `stop`. -/
def initState : AdapterState :=
  { content := [], curItem := none, curBlock := none, usage := zeroUsage, stopReason := .stop }

/-- `blockIndex()` in the source: `blocks.length - 1`. -/
def blockIndex (content : List Block) : Int := (content.length : Int) - 1

/-- Replace the last element of a list (models mutation of the aliased last
summary or content part). -/
def updateLast (f : α → α) : List α → List α
  | [] => []
  | [x] => [f x]
  | x :: y :: xs => x :: updateLast f (y :: xs)

/-- One iteration of the adapter's `for await` loop: dispatch one vendor
event against the current state, returning the new state and the canonical
events pushed, or the message of the thrown error. Mirrors the source's
branch structure one-to-one; unmatched shapes fall through silently. -/
def stepEv (ctx : Context) (model : ModelInfo) (st : AdapterState) :
    VendorEvent → Except String (AdapterState × List EmEvent)
  | .outputItemAdded item =>
    match item with
    | .reasoning _ _ _ =>
        let content' := st.content ++ [Block.thinking "" none]
        .ok ({ st with content := content', curItem := some item, curBlock := some st.content.length },
             [.thinkingStart (blockIndex content')])
    | .message _ _ =>
        let content' := st.content ++ [Block.text "" none]
        .ok ({ st with content := content', curItem := some item, curBlock := some st.content.length },
             [.textStart (blockIndex content')])
    | .functionCall itemId callId name args =>
        let content' := st.content ++ [Block.toolCall (callId ++ "|" ++ itemId) name (.obj []) (some args)]
        .ok ({ st with content := content', curItem := some item, curBlock := some st.content.length },
             [.toolcallStart (blockIndex content')])
  | .summaryPartAdded text =>
    match st.curItem with
    | some (.reasoning rid summ enc) =>
        .ok ({ st with curItem := some (.reasoning rid (summ ++ [text]) enc) }, [])
    | _ => .ok (st, [])
  | .summaryTextDelta d =>
    match st.curItem, st.curBlock with
    | some (.reasoning rid summ enc), some i =>
      (match st.content[i]? with
      | some (.thinking t sig) =>
          if summ.isEmpty then .ok (st, [])
          else
            .ok ({ st with
                    content := st.content.set i (.thinking (t ++ d) sig),
                    curItem := some (.reasoning rid (updateLast (· ++ d) summ) enc) },
                 [.thinkingDelta (blockIndex st.content) d])
      | _ => .ok (st, []))
    | _, _ => .ok (st, [])
  | .summaryPartDone =>
    match st.curItem, st.curBlock with
    | some (.reasoning rid summ enc), some i =>
      (match st.content[i]? with
      | some (.thinking t sig) =>
          if summ.isEmpty then .ok (st, [])
          else
            .ok ({ st with
                    content := st.content.set i (.thinking (t ++ "\n\n") sig),
                    curItem := some (.reasoning rid (updateLast (· ++ "\n\n") summ) enc) },
                 [.thinkingDelta (blockIndex st.content) "\n\n"])
      | _ => .ok (st, []))
    | _, _ => .ok (st, [])
  | .contentPartAdded part =>
    match st.curItem with
    | some (.message mid parts) =>
        .ok ({ st with curItem := some (.message mid (parts ++ [part])) }, [])
    | _ => .ok (st, [])
  | .outputTextDelta d =>
    match st.curItem, st.curBlock with
    | some (.message mid parts), some i =>
      (match st.content[i]? with
      | some (.text t sig) =>
        (match parts.getLast? with
        | some (.outputText _) =>
            .ok ({ st with
                    content := st.content.set i (.text (t ++ d) sig),
                    curItem := some (.message mid (updateLast
                      (fun p => match p with | .outputText s => .outputText (s ++ d) | p => p) parts)) },
                 [.textDelta (blockIndex st.content) d])
        | _ => .ok (st, []))
      | _ => .ok (st, []))
    | _, _ => .ok (st, [])
  | .refusalDelta d =>
    match st.curItem, st.curBlock with
    | some (.message mid parts), some i =>
      (match st.content[i]? with
      | some (.text t sig) =>
        (match parts.getLast? with
        | some (.refusal _) =>
            .ok ({ st with
                    content := st.content.set i (.text (t ++ d) sig),
                    curItem := some (.message mid (updateLast
                      (fun p => match p with | .refusal s => .refusal (s ++ d) | p => p) parts)) },
                 [.textDelta (blockIndex st.content) d])
        | _ => .ok (st, []))
      | _ => .ok (st, []))
    | _, _ => .ok (st, [])
  | .funcArgsDelta d =>
    match st.curItem, st.curBlock with
    | some (.functionCall _ _ _ _), some i =>
      (match st.content[i]? with
      | some (.toolCall tid tname _ pj) =>
          let pj' := pj.getD "" ++ d
          .ok ({ st with
                  content := st.content.set i (.toolCall tid tname (parseStreamingJson pj') (some pj')) },
               [.toolcallDelta (blockIndex st.content) d])
      | _ => .ok (st, []))
    | _, _ => .ok (st, [])
  | .outputItemDone item =>
    match item with
    | .reasoning _ summ _ =>
      (match st.curBlock with
      | some i =>
        (match st.content[i]? with
        | some (.thinking _ _) =>
            let newThinking := String.intercalate "\n\n" summ
            .ok ({ st with
                    content := st.content.set i (.thinking newThinking (some item)),
                    curBlock := none },
                 [.thinkingEnd (blockIndex st.content) newThinking])
        | _ => .ok (st, []))
      | none => .ok (st, []))
    | .message mid parts =>
      (match st.curBlock with
      | some i =>
        (match st.content[i]? with
        | some (.text _ _) =>
            let newText := String.join (parts.map (fun p =>
              match p with | .outputText t => t | .refusal r => r))
            .ok ({ st with
                    content := st.content.set i (.text newText (some mid)),
                    curBlock := none },
                 [.textEnd (blockIndex st.content) newText])
        | _ => .ok (st, []))
      | none => .ok (st, []))
    | .functionCall itemId callId name args =>
      (match jsonParse args with
      | none => .error ("Unexpected token in JSON: " ++ args)
      | some parsed =>
          let validated :=
            match ctx.tools with
            | some tools =>
              (match tools.find? (fun t => t.name = name) with
              | some tool => validateToolArguments tool parsed
              | none => parsed)
            | none => parsed
          .ok (st, [.toolcallEnd (blockIndex st.content)
                      (Block.toolCall (callId ++ "|" ++ itemId) name validated none)]))
  | .completed status usage? =>
      let st1 :=
        match usage? with
        | some u =>
            let cached := orZero u.cachedTokens
            { st with usage :=
                { input := orZero u.inputTokens - cached
                  output := orZero u.outputTokens
                  cacheRead := cached
                  cacheWrite := 0
                  cost := zeroCost } }
        | none => st
      let st2 := { st1 with usage := calculateCost model st1.usage }
      let sr := mapStopReason status
      let sr' := if st2.content.any Block.isToolCall ∧ sr = .stop then .toolUse else sr
      .ok ({ st2 with stopReason := sr' }, [])
  | .errorEvent code message => .error ("Error Code " ++ code ++ ": " ++ message)
  | .failed => .error "Unknown error"

/-- The result of draining the vendor event loop: final state, canonical
events pushed so far, and the thrown error's message if an iteration threw. -/
structure LoopResult where
  state : AdapterState
  events : List EmEvent
  thrown : Option String
deriving Repr

/-- Process a list of vendor events from a given state, stopping at the
first thrown error (whose already-pushed events stand). -/
def processEvents (ctx : Context) (model : ModelInfo) :
    AdapterState → List VendorEvent → LoopResult
  | st, [] => { state := st, events := [], thrown := none }
  | st, e :: es =>
    match stepEv ctx model st e with
    | .error msg => { state := st, events := [], thrown := some msg }
    | .ok (st', evs) =>
        let r := processEvents ctx model st' es
        { r with events := evs ++ r.events }

/-- Assemble the (in-flight or final) `AssistantMessage` from the adapter
state. -/
def buildMessage (model : ModelInfo) (st : AdapterState) (errorMessage : Option String) :
    AssistantMsg :=
  { content := st.content, provider := model.provider, model := model.id,
    usage := st.usage, stopReason := st.stopReason, errorMessage := errorMessage }

/-- The vendor events the `for await` iteration actually sees: all of them,
or the first `k` when a transport exception interrupts after `k` events. -/
def consumedEvents (events : List VendorEvent) (transportCut : Option (Nat × String)) :
    List VendorEvent :=
  match transportCut with
  | some (k, _) => events.take k
  | none => events

/-- The vendor-event loop of one run: process the events the iteration
actually sees before any transport interruption. -/
def runLoop (model : ModelInfo) (ctx : Context) (events : List VendorEvent)
    (transportCut : Option (Nat × String)) : LoopResult :=
  processEvents ctx model initState (consumedEvents events transportCut)

/-- The message of the exception reaching the catch block, if any: an
in-loop throw, the transport exception, the post-loop abort check, or the
post-loop defensive stop-reason check. -/
def runThrowMsg (model : ModelInfo) (ctx : Context) (events : List VendorEvent)
    (aborted : Bool) (transportCut : Option (Nat × String)) : Option String :=
  match (runLoop model ctx events transportCut).thrown with
  | some m => some m
  | none =>
    match transportCut with
    | some (_, m) => some m
    | none =>
      if aborted then some "Request was aborted"
      else if (runLoop model ctx events transportCut).state.stopReason = .aborted ∨
          (runLoop model ctx events transportCut).state.stopReason = .error then
        some "An unkown error ocurred"
      else none

/-- The full canonical event sequence of one `streamOpenAIResponses` run.
`events` is the vendor stream; `aborted` is whether the caller's abort
signal has fired; `transportCut = some (k, msg)` models a transport-level
exception with message `msg` (a network failure, or the abort raced into
the HTTP read) interrupting the iteration after `k` vendor events. Client
construction is modelled as succeeding (an API key is supplied), so the
leading `start` event is always pushed. On a throw the catch block deletes
the (nonexistent) `index` property of each block — a no-op here — sets the
stop reason from the abort flag, records the error text and pushes the one
terminal `error` event; otherwise the source re-throws on a post-loop
aborted signal or an `aborted`/`error` stop reason, and pushes `done`. -/
def runAdapter (model : ModelInfo) (ctx : Context) (events : List VendorEvent)
    (aborted : Bool) (transportCut : Option (Nat × String)) : List EmEvent :=
  let r := runLoop model ctx events transportCut
  match runThrowMsg model ctx events aborted transportCut with
  | some m =>
      let reason : StopReason := if aborted then .aborted else .error
      EmEvent.start :: r.events ++
        [.errorEv reason (buildMessage model { r.state with stopReason := reason } (some m))]
  | none =>
      EmEvent.start :: r.events ++
        [.done r.state.stopReason (buildMessage model r.state none)]

/-! ## Message-history conversion back to vendor input (`convertMessages`) -/

/-- Modelled from the spec: `sanitizeSurrogates` of
`packages/ai/src/utils/sanitize-unicode.ts` is not among the provided
sources; it removes unpaired UTF-16 surrogates. Lean strings contain only
Unicode scalar values, so on every representable string it is the
identity. -/
def sanitizeSurrogates (s : String) : String := s

/-- Modelled from the spec: `transformMessages` of
`packages/ai/src/providers/transorm-messages.ts` is not among the provided
sources. The spec describes no transformation of the history (the message
history is owned by the caller and read-only to the core, §3), so it is
modelled as the identity. -/
def transformMessages (msgs : List Message) (_model : ModelInfo) : List Message := msgs

/-- A content part of a vendor input message (`ResponseInputText` /
`ResponseInputImage`, the latter carried as its data URL). -/
inductive RContent where
  | inputText (text : String)
  | inputImage (imageUrl : String)
deriving Repr, DecidableEq

/-- `c.type === "input_image"`. -/
def RContent.isImage : RContent → Bool
  | .inputImage _ => true
  | _ => false

/-- One entry of the `ResponseInput` array `convertMessages` builds. An
assistant text block becomes `outputMessage` (a `ResponseOutputMessage`
with a single `output_text` part, status `completed`); a stored reasoning
item is re-sent as `reasoningItem`. -/
inductive RInput where
  | message (role : String) (content : List RContent)
  | reasoningItem (item : VendorItem)
  | outputMessage (id : String) (text : String)
  | functionCall (id : Option String) (callId : String) (name : String) (arguments : String)
  | functionCallOutput (callId : String) (output : String)
deriving Repr

/-- JavaScript `s.split("|")` on the character list: splits at every `|`,
keeping empty segments, always at least one segment. -/
def splitPipeChars : List Char → List (List Char)
  | [] => [[]]
  | c :: cs =>
      if c = '|' then [] :: splitPipeChars cs
      else
        match splitPipeChars cs with
        | [] => [[c]]
        | g :: gs => (c :: g) :: gs

/-- JavaScript `s.split("|")`. -/
def jsSplitPipe (s : String) : List String :=
  (splitPipeChars s.toList).map List.asString

/-- `s.split("|")[0]` — always defined, the first `|`-segment. -/
def pipeFirst (s : String) : String := ((jsSplitPipe s)[0]?).getD ""

/-- `s.split("|")[1]` — `none` models the JavaScript `undefined` when the
string has no `|`. -/
def pipeSecond (s : String) : Option String := (jsSplitPipe s)[1]?

/-- Conversion of one assistant content block for re-submission, given the
message's stop reason. Thinking and tool-call blocks of a message whose
`stopReason` is `"error"` are dropped; a thinking block is re-sent as the
`JSON.parse` of its stored signature (here: the stored item itself); a text
block's vendor id is its `textSignature`, with a random fallback id
modelled by the fixed placeholder `"msg_random"`. -/
def convertAssistantBlock (sr : StopReason) : Block → List RInput
  | .thinking _ sig =>
      if sr ≠ .error then
        match sig with
        | some item => [.reasoningItem item]
        | none => []
      else []
  | .text t tsig =>
      [.outputMessage (tsig.getD "msg_random") (sanitizeSurrogates t)]
  | .toolCall tid tname targs _ =>
      if sr ≠ .error then
        [.functionCall (pipeSecond tid) (pipeFirst tid) tname (Json.render targs)]
      else []

/-- Map one user content part to vendor input content. -/
def convertUserPart : UserPart → RContent
  | .text t => .inputText (sanitizeSurrogates t)
  | .image data mime => .inputImage ("data:" ++ mime ++ ";base64," ++ data)

/-- The text of a tool-result part, if it is a text part. -/
def UserPart.textOf : UserPart → Option String
  | .text t => some t
  | _ => none

/-- `b.type === "image"`. -/
def UserPart.isImage : UserPart → Bool
  | .image _ _ => true
  | _ => false

/-- An image part of a tool result, rendered as vendor input content. -/
def UserPart.imageContent : UserPart → Option RContent
  | .image data mime => some (.inputImage ("data:" ++ mime ++ ";base64," ++ data))
  | _ => none

/-- Conversion of one history message into zero or more vendor input
entries (the per-message body of `convertMessages`). -/
def convertMessage (model : ModelInfo) : Message → List RInput
  | .user (.str s) => [.message "user" [.inputText (sanitizeSurrogates s)]]
  | .user (.parts parts) =>
      let content := parts.map convertUserPart
      let filtered := if model.supportsImageInput then content
        else content.filter (fun c => ¬ c.isImage)
      if filtered.isEmpty then [] else [.message "user" filtered]
  | .assistant msg =>
      (msg.content.map (convertAssistantBlock msg.stopReason)).flatten
  | .toolResult tcid _ content _ =>
      let textResult := String.intercalate "\n"
        ((content.filterMap UserPart.textOf))
      let hasImages := content.any UserPart.isImage
      let hasText := textResult.length > 0
      [.functionCallOutput (pipeFirst tcid)
          (sanitizeSurrogates (if hasText then textResult else "(see attached image)"))] ++
        (if hasImages ∧ model.supportsImageInput then
          [.message "user"
            (RContent.inputText "Attached image(s) from tool result:" ::
              content.filterMap UserPart.imageContent)]
        else [])

/-- `convertMessages` (openai-responses.ts): history to vendor input, with
an optional leading system-prompt message. -/
def convertMessages (model : ModelInfo) (ctx : Context) (skipSystemPrompt : Bool) :
    List RInput :=
  let transformed := transformMessages ctx.messages model
  let sys :=
    match ctx.systemPrompt with
    | some sp =>
        if ¬ skipSystemPrompt then [RInput.message "user" [.inputText (sanitizeSurrogates sp)]]
        else []
    | none => []
  sys ++ (transformed.map (convertMessage model)).flatten

/-! ## Dispatcher option mapping (`packages/ai/src/stream.ts`) -/

/-- Canonical reasoning effort levels. -/
inductive ReasoningEffort where
  | minimal | low | medium | high
deriving Repr, DecidableEq

/-- The reduced option shape `streamSimple`/`completeSimple` accept; only
the fields `mapOptionsForApi` reads are modelled. -/
structure SimpleOptions where
  temperature : Option Rat
  maxTokens : Option Int
  reasoning : Option ReasoningEffort
deriving Repr

/-- The claim-relevant fields of the expanded vendor-specific option shape
`mapOptionsForApi` produces: the common `maxTokens`, the pass-through
`reasoningEffort` of the three OpenAI-style APIs, and the
enabled/budget-tokens pair of the Anthropic `thinkingEnabled`/
`thinkingBudgetTokens` and Google `thinking` shapes. -/
structure MappedOptions where
  temperature : Option Rat
  maxTokens : Int
  reasoningEffort : Option ReasoningEffort
  thinking : Option (Bool × Int)
deriving Repr

/-- JavaScript `x || d` on a possibly-absent number (`0` is falsy). -/
def jsOrInt (x : Option Int) (d : Int) : Int :=
  match x with
  | some n => if n = 0 then d else n
  | none => d

/-- The Anthropic per-effort thinking budget table in `mapOptionsForApi`. -/
def anthropicBudgets : ReasoningEffort → Int
  | .minimal => 1024
  | .low => 2048
  | .medium => 8192
  | .high => 16384

/-- Is `pre` a prefix of `l`? -/
def isPrefixChars : List Char → List Char → Bool
  | [], _ => true
  | _ :: _, [] => false
  | a :: as, b :: bs => a == b && isPrefixChars as bs

/-- Does `l` contain `sub` as a contiguous sublist? -/
def containsChars (l sub : List Char) : Bool :=
  match l with
  | [] => isPrefixChars sub []
  | _ :: rest => isPrefixChars sub l || containsChars rest sub

/-- JavaScript `s.includes(sub)`. -/
def jsIncludes (s sub : String) : Bool := containsChars s.toList sub.toList

/-- `getGoogleBudget` (stream.ts): per-family effort tables for the Gemini
2.5-pro and 2.5-flash families, and the dynamic sentinel `-1` for an
unrecognized model id. -/
def getGoogleBudget (model : ModelInfo) (effort : ReasoningEffort) : Int :=
  if jsIncludes model.id "2.5-pro" then
    match effort with
    | .minimal => 128
    | .low => 2048
    | .medium => 8192
    | .high => 32768
  else if jsIncludes model.id "2.5-flash" then
    match effort with
    | .minimal => 128
    | .low => 2048
    | .medium => 8192
    | .high => 24576
  else -1

/-- `mapOptionsForApi` (stream.ts): expand the reduced option shape into
the vendor-specific one. The base `maxTokens` is
`options?.maxTokens || Math.min(model.maxTokens, 32000)`. -/
def mapOptionsForApi (model : ModelInfo) (options : Option SimpleOptions) : MappedOptions :=
  let base : MappedOptions :=
    { temperature := options.bind SimpleOptions.temperature
      maxTokens := jsOrInt (options.bind SimpleOptions.maxTokens) (min model.maxTokens 32000)
      reasoningEffort := none
      thinking := none }
  match model.api with
  | .anthropicMessages =>
    match options.bind SimpleOptions.reasoning with
    | none => base
    | some eff => { base with thinking := some (true, anthropicBudgets eff) }
  | .openaiCompletions => { base with reasoningEffort := options.bind SimpleOptions.reasoning }
  | .openaiResponses => { base with reasoningEffort := options.bind SimpleOptions.reasoning }
  | .openaiCodex => { base with reasoningEffort := options.bind SimpleOptions.reasoning }
  | .googleGenerativeAI =>
    match options.bind SimpleOptions.reasoning with
    | none => base
    | some eff => { base with thinking := some (true, getGoogleBudget model eff) }

/-! ## Emitted-sequence invariants (claim C4) -/

/-- The kind of a vendor output item. -/
inductive ItemKind where
  | reasoningK | messageK | functionK
deriving Repr, DecidableEq

/-- The kind of a vendor item. -/
def kindOf : VendorItem → ItemKind
  | .reasoning _ _ _ => .reasoningK
  | .message _ _ => .messageK
  | .functionCall _ _ _ _ => .functionK

/-- One step of the vendor wire protocol's bracketing discipline: items are
opened by `output_item.added` and closed by a matching `output_item.done`
before the next item opens; part/delta events occur only inside an item of
the matching kind; `response.completed` arrives outside any open item.
Returns the new open-item state, or `none` when the event is not
well-formed in the current state. -/
def wfStep : Option ItemKind → VendorEvent → Option (Option ItemKind)
  | none, .outputItemAdded item => some (some (kindOf item))
  | some k, .outputItemDone item => if kindOf item = k then some none else none
  | some .reasoningK, .summaryPartAdded _ => some (some .reasoningK)
  | some .reasoningK, .summaryTextDelta _ => some (some .reasoningK)
  | some .reasoningK, .summaryPartDone => some (some .reasoningK)
  | some .messageK, .contentPartAdded _ => some (some .messageK)
  | some .messageK, .outputTextDelta _ => some (some .messageK)
  | some .messageK, .refusalDelta _ => some (some .messageK)
  | some .functionK, .funcArgsDelta _ => some (some .functionK)
  | none, .completed _ _ => some none
  | o, .errorEvent _ _ => some o
  | o, .failed => some o
  | _, _ => none

/-- Well-formedness of a vendor event list from a given open-item state. -/
def wfFrom (o : Option ItemKind) : List VendorEvent → Bool
  | [] => true
  | e :: es =>
    match wfStep o e with
    | some o' => wfFrom o' es
    | none => false

/-- A well-formed vendor stream (items properly bracketed from the start). -/
def wfVendor (events : List VendorEvent) : Bool := wfFrom none events

/-- Scan of an emitted canonical event sequence: `o` is the index of the
currently-open block (if any), `n` the number of blocks opened so far.
Checks that the Nth block opened carries contentIndex N−1, that no block
opens while another is open, and that every delta and end event refers to
the currently-open block. -/
def okFrom (o : Option Int) (n : Int) : List EmEvent → Bool
  | [] => true
  | e :: es =>
    match e with
    | .start => okFrom o n es
    | .thinkingStart i => o == none && i == n && okFrom (some i) (n + 1) es
    | .textStart i => o == none && i == n && okFrom (some i) (n + 1) es
    | .toolcallStart i => o == none && i == n && okFrom (some i) (n + 1) es
    | .thinkingDelta i _ => o == some i && okFrom o n es
    | .textDelta i _ => o == some i && okFrom o n es
    | .toolcallDelta i _ => o == some i && okFrom o n es
    | .thinkingEnd i _ => o == some i && okFrom none n es
    | .textEnd i _ => o == some i && okFrom none n es
    | .toolcallEnd i _ => o == some i && okFrom none n es
    | .done _ _ => okFrom o n es
    | .errorEv _ _ => okFrom o n es

/-- The block-lifecycle invariant of an emitted event sequence. -/
def okEvents (evs : List EmEvent) : Bool := okFrom none 0 evs

/-! ## Fixtures and statement helpers -/

/-- A model fixture for concrete runs. -/
def testModel : ModelInfo :=
  { id := "gpt-test", name := "gpt-test", api := .openaiResponses, provider := "openai",
    reasoning := true, supportsImageInput := true, cost := ⟨1, 2, 0, 0⟩,
    contextWindow := 128000, maxTokens := 16384 }

/-- An empty context fixture. -/
def emptyCtx : Context := { systemPrompt := none, messages := [], tools := none }

/-- A placeholder message for total projections. -/
def dummyMsg : AssistantMsg :=
  { content := [], provider := "", model := "", usage := zeroUsage, stopReason := .stop,
    errorMessage := none }

/-- The message carried by a run's terminal event, if any. -/
def lastMsg? (evs : List EmEvent) : Option AssistantMsg :=
  match evs.getLast? with
  | some (.done _ m) => some m
  | some (.errorEv _ m) => some m
  | _ => none

/-- Is the event a terminal `error` event? -/
def EmEvent.isErrorEv : EmEvent → Bool
  | .errorEv _ _ => true
  | _ => false

/-- Is the event a terminal `done` event? -/
def EmEvent.isDoneEv : EmEvent → Bool
  | .done _ _ => true
  | _ => false

/-- Number of terminal `error` events in a canonical event sequence. -/
def countErrors (evs : List EmEvent) : Nat := evs.countP (fun e => e.isErrorEv)

/-! ## Fixtures for the claim instances -/

/-- A closed instance of C1: a drained stream with one completed tool call
and vendor status `completed` finalizes with stop reason `toolUse`. -/
def c1Events : List VendorEvent :=
  [ .outputItemAdded (.functionCall "fc_9" "call_9" "lookup" ""),
    .funcArgsDelta "\x7b\x7d",
    .outputItemDone (.functionCall "fc_9" "call_9" "lookup" "\x7b\x7d") ]

/-- The vendor events of the C3 counterexample: a tool-call block is opened
and receives one argument delta, then the abort interrupts the stream. -/
def c3Events : List VendorEvent :=
  [ .outputItemAdded (.functionCall "fc_3" "call_3" "lookup" ""),
    .funcArgsDelta "\x7b\"q\":" ]

/-- The run of the C3 counterexample. -/
def c3Run : List EmEvent :=
  runAdapter testModel emptyCtx c3Events true (some (2, "Request was aborted"))

/-- Does a content block's kind match a vendor item kind? -/
def blockMatchesKind : ItemKind → Block → Bool
  | .reasoningK, .thinking _ _ => true
  | .messageK, .text _ _ => true
  | .functionK, .toolCall _ _ _ _ => true
  | _, _ => false

/-- The kind of the adapter's current vendor item, if any. -/
def curItemKind (st : AdapterState) : Option ItemKind := st.curItem.map kindOf

/-- The last content block exists and matches the open item kind. -/
def lastMatches (k : ItemKind) (l : List Block) : Prop :=
  match l.getLast? with
  | some b => blockMatchesKind k b = true
  | none => False

/-- Coupling invariant between the wire protocol's bracketing state, the
adapter state, and the emitted-scan state: while an item of kind `k` is
open, the scan's open index and the adapter cursor both point at the last
content block, whose kind matches `k`, and the mirrored current item has
kind `k`; while no item is open, the scan has no open block. -/
def Invar : Option ItemKind → AdapterState → Option Int → Prop
  | none, _, oscan => oscan = none
  | some k, st, oscan =>
      oscan = some ((st.content.length : Int) - 1) ∧
      st.curBlock = some (st.content.length - 1) ∧
      st.content ≠ [] ∧
      lastMatches k st.content ∧
      curItemKind st = some k

/-- A well-formed vendor stream mixing all three block kinds, used as the
C4 witness input. -/
def c4Events : List VendorEvent :=
  [ .outputItemAdded (.reasoning "rs_1" [] none),
    .summaryPartAdded "",
    .summaryTextDelta "thinking...",
    .outputItemDone (.reasoning "rs_1" ["thinking..."] none),
    .outputItemAdded (.message "msg_1" []),
    .contentPartAdded (.outputText ""),
    .outputTextDelta "Hi",
    .outputItemDone (.message "msg_1" [.outputText "Hi"]),
    .outputItemAdded (.functionCall "fc_1" "call_1" "lookup" ""),
    .funcArgsDelta "\x7b\x7d",
    .outputItemDone (.functionCall "fc_1" "call_1" "lookup" "\x7b\x7d"),
    .completed (some .completed) (some ⟨some 10, some 5, none⟩) ]

/-- The `partialJson` field of a block, when present. -/
def Block.partialJsonOf : Block → Option String
  | .toolCall _ _ _ pj => pj
  | _ => none

/-- Scenario A's vendor stream: a message item with text delta `"Hello"`,
then a function-call item named `lookup` whose arguments arrive as two
deltas, then completion with usage `{input 10, output 5}`. -/
def c5Events : List VendorEvent :=
  [ .outputItemAdded (.message "msg_1" []),
    .contentPartAdded (.outputText ""),
    .outputTextDelta "Hello",
    .outputItemDone (.message "msg_1" [.outputText "Hello"]),
    .outputItemAdded (.functionCall "fc_1" "call_1" "lookup" ""),
    .funcArgsDelta "\x7b\"q\":",
    .funcArgsDelta "\"x\"\x7d",
    .outputItemDone (.functionCall "fc_1" "call_1" "lookup" "\x7b\"q\":\"x\"\x7d"),
    .completed (some .completed) (some ⟨some 10, some 5, none⟩) ]

/-- The canonical events of the Scenario A run. -/
def c5Run : List EmEvent := runAdapter testModel emptyCtx c5Events false none

/-- The finalized message of the Scenario A run. -/
def c5Msg : AssistantMsg := (lastMsg? c5Run).getD dummyMsg

/-- An OpenAI Responses model with an 8192-token advertised ceiling. -/
def c7Model : ModelInfo := { testModel with maxTokens := 8192 }

/-- An Anthropic-API model fixture. -/
def anthroModel : ModelInfo :=
  { testModel with api := .anthropicMessages, provider := "anthropic" }

/-- A Gemini 2.5-pro model fixture. -/
def googleProModel : ModelInfo :=
  { testModel with api := .googleGenerativeAI, id := "gemini-2.5-pro" }

/-- A Google model of no known family. -/
def googleUnknownModel : ModelInfo :=
  { testModel with api := .googleGenerativeAI, id := "mystery-model" }

/-- A completed vendor reasoning item fixture. -/
def c9Item : VendorItem := .reasoning "rs_1" ["because"] (some "enc")

/-- An assistant history message that ended in `error`, carrying a stored
reasoning item. -/
def c9ErrMsg : AssistantMsg :=
  { content := [.thinking "because" (some c9Item)], provider := "openai", model := "gpt-test",
    usage := zeroUsage, stopReason := .error, errorMessage := some "boom" }

/-- The same history message finalized with `stop`. -/
def c9OkMsg : AssistantMsg := { c9ErrMsg with stopReason := .stop, errorMessage := none }

/-- An adapter state with one open thinking block, for the C9 witness. -/
def c9St : AdapterState :=
  { content := [.thinking "" none], curItem := some (.reasoning "rs_1" [] none),
    curBlock := some 0, usage := zeroUsage, stopReason := .stop }

/-- The `call_id` a vendor input entry carries, if any. -/
def RInput.callIdOf : RInput → Option String
  | .functionCall _ c _ _ => some c
  | .functionCallOutput c _ => some c
  | _ => none

/-- The assistant history message of the C10 counterexample: a tool call
whose vendor item id itself contained a `|`. -/
def c10Msg : AssistantMsg :=
  { content := [.toolCall "call1|a|b" "lookup" (.obj []) none], provider := "openai",
    model := "gpt-test", usage := zeroUsage, stopReason := .toolUse, errorMessage := none }

/-! ## Theorems

Composition lemmas for the event loop, followed by the claim theorems. -/

theorem processEvents_append_throw (ctx : Context) (model : ModelInfo) (m : String) :
    ∀ (es1 : List VendorEvent) (st : AdapterState) (es2 : List VendorEvent),
    (processEvents ctx model st es1).thrown = some m →
    processEvents ctx model st (es1 ++ es2) = processEvents ctx model st es1 := by
  intro es1
  induction es1 with
  | nil => intro st es2 h; simp [processEvents] at h
  | cons e es ih =>
      intro st es2 h
      simp only [processEvents, List.cons_append] at h ⊢
      cases hs : stepEv ctx model st e with
      | error msg => simp [hs] at h ⊢
      | ok p =>
          simp only [hs] at h ⊢
          exact congrArg (fun r => { r with events := p.2 ++ r.events }) (ih p.1 es2 h)

theorem processEvents_append_no_throw (ctx : Context) (model : ModelInfo) :
    ∀ (es1 : List VendorEvent) (st : AdapterState) (es2 : List VendorEvent),
    (processEvents ctx model st es1).thrown = none →
    processEvents ctx model st (es1 ++ es2) =
      { state := (processEvents ctx model (processEvents ctx model st es1).state es2).state,
        events := (processEvents ctx model st es1).events ++
          (processEvents ctx model (processEvents ctx model st es1).state es2).events,
        thrown := (processEvents ctx model (processEvents ctx model st es1).state es2).thrown } := by
  intro es1
  induction es1 with
  | nil => intro st es2 _; simp [processEvents]
  | cons e es ih =>
      intro st es2 h
      simp only [processEvents, List.cons_append] at h ⊢
      cases hs : stepEv ctx model st e with
      | error msg => simp [hs] at h
      | ok p =>
          simp only [hs, List.append_eq] at h ⊢
          rw [ih p.1 es2 h]
          simp

/-- The `response.completed` handler: pushes nothing, keeps the content,
and sets the stop reason from the status map with the tool-call upgrade. -/
theorem stepEv_completed_state (ctx : Context) (model : ModelInfo) (st : AdapterState)
    (status : Option RespStatus) (usage : Option RawUsage) (st' : AdapterState)
    (evs : List EmEvent)
    (h : stepEv ctx model st (.completed status usage) = .ok (st', evs)) :
    evs = [] ∧ st'.content = st.content ∧
      st'.stopReason =
        (if st.content.any Block.isToolCall ∧ mapStopReason status = .stop then .toolUse
         else mapStopReason status) := by
  cases usage with
  | none =>
      simp only [stepEv] at h
      cases h.symm
      simp [calculateCost]
  | some u =>
      simp only [stepEv] at h
      cases h.symm
      simp [calculateCost]

/-- The `response.completed` handler with full usage: the canonical counts
are raw input minus cached, raw output, cached as cacheRead, zero
cacheWrite. -/
theorem stepEv_completed_usage (ctx : Context) (model : ModelInfo) (st : AdapterState)
    (status : Option RespStatus) (I O C : Int) (st' : AdapterState) (evs : List EmEvent)
    (h : stepEv ctx model st (.completed status (some ⟨some I, some O, some C⟩)) = .ok (st', evs)) :
    st'.usage.input = I - C ∧ st'.usage.output = O ∧ st'.usage.cacheRead = C ∧
      st'.usage.cacheWrite = 0 := by
  simp only [stepEv] at h
  cases h.symm
  simp [calculateCost, orZero]

theorem getLast?_cons_append_singleton (a x : EmEvent) (l : List EmEvent) :
    (a :: l ++ [x]).getLast? = some x :=
  List.getLast?_concat (a :: l)

theorem runAdapter_error_of_throw (model : ModelInfo) (ctx : Context)
    (events : List VendorEvent) (aborted : Bool) (cut : Option (Nat × String)) (m : String)
    (h : runThrowMsg model ctx events aborted cut = some m) :
    runAdapter model ctx events aborted cut =
      EmEvent.start :: (runLoop model ctx events cut).events ++
        [.errorEv (if aborted then .aborted else .error)
          (buildMessage model
            { (runLoop model ctx events cut).state with
                stopReason := if aborted then .aborted else .error } (some m))] := by
  simp [runAdapter, h]

theorem runAdapter_done_of_no_throw (model : ModelInfo) (ctx : Context)
    (events : List VendorEvent) (aborted : Bool) (cut : Option (Nat × String))
    (h : runThrowMsg model ctx events aborted cut = none) :
    runAdapter model ctx events aborted cut =
      EmEvent.start :: (runLoop model ctx events cut).events ++
        [.done (runLoop model ctx events cut).state.stopReason
          (buildMessage model (runLoop model ctx events cut).state none)] := by
  simp [runAdapter, h]

theorem runThrowMsg_none_elim (model : ModelInfo) (ctx : Context)
    (events : List VendorEvent) (aborted : Bool) (cut : Option (Nat × String))
    (h : runThrowMsg model ctx events aborted cut = none) :
    (runLoop model ctx events cut).thrown = none ∧ cut = none ∧ aborted = false ∧
      ¬((runLoop model ctx events cut).state.stopReason = .aborted ∨
        (runLoop model ctx events cut).state.stopReason = .error) := by
  unfold runThrowMsg at h
  cases hth : (runLoop model ctx events cut).thrown with
  | some mm => rw [hth] at h; simp at h
  | none =>
      rw [hth] at h
      cases cut with
      | some kv =>
          obtain ⟨k, mm⟩ := kv
          simp at h
      | none =>
          cases aborted with
          | true => simp at h
          | false =>
              by_cases hsr : (runLoop model ctx events none).state.stopReason = .aborted ∨
                  (runLoop model ctx events none).state.stopReason = .error
              · simp [hsr] at h
              · exact ⟨rfl, rfl, rfl, hsr⟩

/-- The `response.completed` handler never throws. -/
theorem stepEv_completed_ne_error (ctx : Context) (model : ModelInfo) (st : AdapterState)
    (status : Option RespStatus) (usage : Option RawUsage) (e : String) :
    stepEv ctx model st (.completed status usage) ≠ .error e := by
  cases usage <;> simp [stepEv]

/-- C1: for a finalized message whose run drained a vendor stream ending in
`response.completed`, if the vendor status maps to the canonical reason
`stop` (statuses completed, in_progress, queued, or an absent status) and
the final content contains a `ToolCall` block, the final `stopReason` is
`toolUse`. -/
theorem toolUse_upgrade_on_stop
    (model : ModelInfo) (ctx : Context) (events : List VendorEvent)
    (status : Option RespStatus) (usage : Option RawUsage)
    (aborted : Bool) (cut : Option (Nat × String)) (r : StopReason) (m : AssistantMsg)
    (hstatus : mapStopReason status = .stop)
    (hlast : (runAdapter model ctx (events ++ [.completed status usage]) aborted cut).getLast?
               = some (.done r m))
    (htool : m.content.any Block.isToolCall = true) :
    m.stopReason = .toolUse := by
  cases hthrow : runThrowMsg model ctx (events ++ [.completed status usage]) aborted cut with
  | some mm =>
      rw [runAdapter_error_of_throw _ _ _ _ _ _ hthrow, getLast?_cons_append_singleton] at hlast
      simp at hlast
  | none =>
      obtain ⟨hthr, hcut, _, _⟩ := runThrowMsg_none_elim _ _ _ _ _ hthrow
      rw [runAdapter_done_of_no_throw _ _ _ _ _ hthrow, getLast?_cons_append_singleton] at hlast
      subst hcut
      simp only [runLoop, consumedEvents] at hlast hthr
      injection hlast with hlast
      cases hr1 : (processEvents ctx model initState events).thrown with
      | some m1 =>
          rw [processEvents_append_throw ctx model m1 events initState _ hr1, hr1] at hthr
          exact absurd hthr (by simp)
      | none =>
          rw [processEvents_append_no_throw ctx model events initState _ hr1] at hlast
          cases he : stepEv ctx model (processEvents ctx model initState events).state
              (.completed status usage) with
          | error e => exact absurd he (stepEv_completed_ne_error _ _ _ _ _ _)
          | ok p =>
              obtain ⟨_, hcontent, hsr'⟩ := stepEv_completed_state _ _ _ _ _ _ _ he
              simp only [processEvents, he] at hlast
              injection hlast with hr hm
              have hmc : m.content = p.1.content := by rw [← hm]; rfl
              have hms : m.stopReason = p.1.stopReason := by rw [← hm]; rfl
              rw [hms, hsr']
              rw [hmc, hcontent] at htool
              simp [htool, hstatus]

theorem toolUse_upgrade_on_stop_witness :
    mapStopReason (some .completed) = .stop ∧
    ((lastMsg? (runAdapter testModel emptyCtx
        (c1Events ++ [.completed (some .completed) none]) false none)).getD dummyMsg).stopReason
      = .toolUse := by
  refine ⟨rfl, toolUse_upgrade_on_stop testModel emptyCtx c1Events (some .completed) none
    false none .toolUse _ rfl ?_ rfl⟩
  rfl

/-- C2: when `response.completed` reports usage with raw `input_tokens` I,
`output_tokens` O and `cached_tokens` C, the finalized canonical usage has
`input = I - C`, `output = O`, `cacheRead = C` and `cacheWrite = 0`. -/
theorem usage_cache_subtraction
    (model : ModelInfo) (ctx : Context) (events : List VendorEvent)
    (status : Option RespStatus) (I O C : Int)
    (aborted : Bool) (cut : Option (Nat × String)) (r : StopReason) (m : AssistantMsg)
    (hlast : (runAdapter model ctx
        (events ++ [.completed status (some ⟨some I, some O, some C⟩)]) aborted cut).getLast?
          = some (.done r m)) :
    m.usage.input = I - C ∧ m.usage.cacheRead = C ∧ m.usage.cacheWrite = 0 ∧
      m.usage.output = O := by
  cases hthrow : runThrowMsg model ctx
      (events ++ [.completed status (some ⟨some I, some O, some C⟩)]) aborted cut with
  | some mm =>
      rw [runAdapter_error_of_throw _ _ _ _ _ _ hthrow, getLast?_cons_append_singleton] at hlast
      simp at hlast
  | none =>
      obtain ⟨hthr, hcut, _, _⟩ := runThrowMsg_none_elim _ _ _ _ _ hthrow
      rw [runAdapter_done_of_no_throw _ _ _ _ _ hthrow, getLast?_cons_append_singleton] at hlast
      subst hcut
      simp only [runLoop, consumedEvents] at hlast hthr
      injection hlast with hlast
      cases hr1 : (processEvents ctx model initState events).thrown with
      | some m1 =>
          rw [processEvents_append_throw ctx model m1 events initState _ hr1, hr1] at hthr
          exact absurd hthr (by simp)
      | none =>
          rw [processEvents_append_no_throw ctx model events initState _ hr1] at hlast
          cases he : stepEv ctx model (processEvents ctx model initState events).state
              (.completed status (some ⟨some I, some O, some C⟩)) with
          | error e => exact absurd he (stepEv_completed_ne_error _ _ _ _ _ _)
          | ok p =>
              obtain ⟨h1, h2, h3, h4⟩ := stepEv_completed_usage _ _ _ _ _ _ _ _ _ he
              simp only [processEvents, he] at hlast
              injection hlast with hr hm
              have hmu : m.usage = p.1.usage := by rw [← hm]; rfl
              rw [hmu]
              exact ⟨h1, h3, h4, h2⟩

/-- A closed instance of C2: `input_tokens 1000`, `cached_tokens 400`,
`output_tokens 5` yield canonical input 600, cacheRead 400, cacheWrite 0. -/
theorem usage_cache_subtraction_witness :
    ((lastMsg? (runAdapter testModel emptyCtx
        [.completed (some .completed) (some ⟨some 1000, some 5, some 400⟩)] false none)).getD
      dummyMsg).usage.input = 600 ∧
    ((lastMsg? (runAdapter testModel emptyCtx
        [.completed (some .completed) (some ⟨some 1000, some 5, some 400⟩)] false none)).getD
      dummyMsg).usage.cacheRead = 400 := by
  have h := usage_cache_subtraction testModel emptyCtx [] (some .completed) 1000 5 400
    false none .stop
    ((lastMsg? (runAdapter testModel emptyCtx
        [.completed (some .completed) (some ⟨some 1000, some 5, some 400⟩)] false none)).getD
      dummyMsg)
    rfl
  exact ⟨by rw [h.1]; decide, h.2.1⟩

/-! ## Claim C3: terminal error events -/

/-- No loop iteration ever pushes a terminal (`done`/`error`) event; those
are pushed only after the loop. -/
theorem stepEv_events_not_terminal (ctx : Context) (model : ModelInfo) (st : AdapterState)
    (e : VendorEvent) (st' : AdapterState) (evs : List EmEvent)
    (h : stepEv ctx model st e = .ok (st', evs)) :
    evs.all (fun ev => !ev.isErrorEv && !ev.isDoneEv) = true := by
  cases e <;> simp only [stepEv] at h <;> (repeat' split at h) <;>
    simp_all [EmEvent.isErrorEv, EmEvent.isDoneEv] <;>
    (obtain ⟨h1, h2⟩ := h; subst h2; simp [EmEvent.isErrorEv, EmEvent.isDoneEv])

/-- The whole loop pushes no terminal event. -/
theorem processEvents_not_terminal (ctx : Context) (model : ModelInfo) :
    ∀ (es : List VendorEvent) (st : AdapterState),
    (processEvents ctx model st es).events.all (fun ev => !ev.isErrorEv && !ev.isDoneEv)
      = true := by
  intro es
  induction es with
  | nil => intro st; rfl
  | cons e es ih =>
      intro st
      simp only [processEvents]
      cases hs : stepEv ctx model st e with
      | error m => rfl
      | ok p =>
          simp only [List.all_append, Bool.and_eq_true]
          exact ⟨stepEv_events_not_terminal _ _ _ _ _ _ hs, ih p.1⟩

/-- The loop's event list contains no `error` event. -/
theorem countErrors_runLoop (model : ModelInfo) (ctx : Context)
    (events : List VendorEvent) (cut : Option (Nat × String)) :
    countErrors (runLoop model ctx events cut).events = 0 := by
  have hall := processEvents_not_terminal ctx model (consumedEvents events cut) initState
  rw [List.all_eq_true] at hall
  rw [countErrors, List.countP_eq_zero]
  intro a ha
  have := hall a ha
  simp only [Bool.and_eq_true, Bool.not_eq_true'] at this
  simp [this.1]

theorem runThrowMsg_isSome (model : ModelInfo) (ctx : Context)
    (events : List VendorEvent) (aborted : Bool) (cut : Option (Nat × String))
    (h : aborted = true ∨ cut ≠ none ∨ (runLoop model ctx events cut).thrown ≠ none) :
    (runThrowMsg model ctx events aborted cut).isSome = true := by
  unfold runThrowMsg
  cases hth : (runLoop model ctx events cut).thrown with
  | some m => rfl
  | none =>
      cases cut with
      | some kv => obtain ⟨k, mm⟩ := kv; rfl
      | none =>
          cases aborted with
          | true => rfl
          | false =>
              rcases h with h | h | h
              · exact absurd h (by simp)
              · exact absurd h (by simp)
              · exact absurd hth h

/-- C3 (amended): whenever the abort signal fired, a transport exception
interrupted the stream, or an iteration threw, the run's event sequence
carries exactly one `error` event, that event is the last one, its reason
(and the message's `stopReason`) is `aborted` when the signal aborted and
`error` otherwise, and the message's `errorMessage` is set to the thrown
error's text. The content blocks are carried into the error message
unchanged: only a nonexistent `index` property is deleted, so the
`partialJson` bookkeeping of a tool-call block is not dropped (see the
counterexample). -/
theorem error_event_terminal (model : ModelInfo) (ctx : Context)
    (events : List VendorEvent) (aborted : Bool) (cut : Option (Nat × String))
    (h : aborted = true ∨ cut ≠ none ∨ (runLoop model ctx events cut).thrown ≠ none) :
    countErrors (runAdapter model ctx events aborted cut) = 1 ∧
    (runAdapter model ctx events aborted cut).getLast? =
      some (.errorEv (if aborted then .aborted else .error)
        (buildMessage model
          { (runLoop model ctx events cut).state with
              stopReason := if aborted then .aborted else .error }
          (runThrowMsg model ctx events aborted cut))) ∧
    (runThrowMsg model ctx events aborted cut).isSome = true := by
  have hsome := runThrowMsg_isSome model ctx events aborted cut h
  obtain ⟨m, hm⟩ := Option.isSome_iff_exists.mp hsome
  rw [runAdapter_error_of_throw model ctx events aborted cut m hm]
  refine ⟨?_, ?_, hsome⟩
  · have h0 := countErrors_runLoop model ctx events cut
    simp only [countErrors] at h0 ⊢
    simp only [List.countP_cons, List.countP_append, h0]
    simp [EmEvent.isErrorEv, List.countP, List.countP.go]
  · rw [getLast?_cons_append_singleton, hm]

/-- Witness for C3 (amended): Scenario B — the abort signal fires after
`text_start`; the run ends in exactly one `error` event with reason
`aborted` and a recorded error message. -/
theorem error_event_terminal_witness :
    ((true = true ∨ (some (1, "Request was aborted") : Option (Nat × String)) ≠ none ∨
        (runLoop testModel emptyCtx [.outputItemAdded (.message "m1" [])]
          (some (1, "Request was aborted"))).thrown ≠ none) ∧
      countErrors (runAdapter testModel emptyCtx [.outputItemAdded (.message "m1" [])]
        true (some (1, "Request was aborted"))) = 1) ∧
    (runAdapter testModel emptyCtx [.outputItemAdded (.message "m1" [])]
        true (some (1, "Request was aborted"))).getLast? =
      some (.errorEv .aborted
        (buildMessage testModel
          { (runLoop testModel emptyCtx [.outputItemAdded (.message "m1" [])]
              (some (1, "Request was aborted"))).state with stopReason := .aborted }
          (runThrowMsg testModel emptyCtx [.outputItemAdded (.message "m1" [])]
            true (some (1, "Request was aborted"))))) := by
  have h := error_event_terminal testModel emptyCtx [.outputItemAdded (.message "m1" [])]
    true (some (1, "Request was aborted")) (Or.inl rfl)
  exact ⟨⟨Or.inl rfl, h.1⟩, h.2.1⟩

/-- C3 counterexample: in the error message pushed after the abort, the
tool-call content block still carries its `partialJson` bookkeeping field
(`delete (block as any).index` removes a property this adapter never sets),
contradicting the claim that non-canonical block-local fields are dropped
before the error event is pushed. -/
theorem error_path_keeps_partialJson :
    ((lastMsg? c3Run).getD dummyMsg).content =
      [Block.toolCall "call_3|fc_3" "lookup" (.obj []) (some "\x7b\"q\":")] ∧
    (some "\x7b\"q\":" : Option String) ≠ none ∧
    ((lastMsg? c3Run).getD dummyMsg).stopReason = .aborted :=
  ⟨rfl, by decide, rfl⟩

/-! ## Claim C4: block lifecycle and contentIndex assignment -/

theorem getLast?_set_last (l : List Block) (a : Block) (h : l ≠ []) :
    (l.set (l.length - 1) a).getLast? = some a := by
  rw [List.getLast?_eq_getElem?, List.length_set]
  have hlen : 0 < l.length := List.length_pos.mpr h
  rw [List.getElem?_set_self (by omega)]

theorem lastMatches_reasoning (l : List Block) (h : lastMatches .reasoningK l) :
    ∃ t sig, l.getLast? = some (.thinking t sig) := by
  unfold lastMatches at h
  cases hgl : l.getLast? with
  | none => rw [hgl] at h; exact h.elim
  | some b =>
      rw [hgl] at h
      cases b with
      | thinking t sig => exact ⟨t, sig, rfl⟩
      | text _ _ => simp [blockMatchesKind] at h
      | toolCall _ _ _ _ => simp [blockMatchesKind] at h

theorem lastMatches_message (l : List Block) (h : lastMatches .messageK l) :
    ∃ t sig, l.getLast? = some (.text t sig) := by
  unfold lastMatches at h
  cases hgl : l.getLast? with
  | none => rw [hgl] at h; exact h.elim
  | some b =>
      rw [hgl] at h
      cases b with
      | text t sig => exact ⟨t, sig, rfl⟩
      | thinking _ _ => simp [blockMatchesKind] at h
      | toolCall _ _ _ _ => simp [blockMatchesKind] at h

theorem lastMatches_functionCall (l : List Block) (h : lastMatches .functionK l) :
    ∃ tid nm args pj, l.getLast? = some (.toolCall tid nm args pj) := by
  unfold lastMatches at h
  cases hgl : l.getLast? with
  | none => rw [hgl] at h; exact h.elim
  | some b =>
      rw [hgl] at h
      cases b with
      | toolCall tid nm args pj => exact ⟨tid, nm, args, pj, rfl⟩
      | thinking _ _ => simp [blockMatchesKind] at h
      | text _ _ => simp [blockMatchesKind] at h

theorem curItem_reasoning (st : AdapterState) (h : curItemKind st = some .reasoningK) :
    ∃ rid summ enc, st.curItem = some (.reasoning rid summ enc) := by
  unfold curItemKind at h
  cases hci : st.curItem with
  | none => rw [hci] at h; simp at h
  | some itm =>
      rw [hci] at h
      cases itm with
      | reasoning rid summ enc => exact ⟨rid, summ, enc, rfl⟩
      | message _ _ => simp [kindOf] at h
      | functionCall _ _ _ _ => simp [kindOf] at h

theorem curItem_message (st : AdapterState) (h : curItemKind st = some .messageK) :
    ∃ mid parts, st.curItem = some (.message mid parts) := by
  unfold curItemKind at h
  cases hci : st.curItem with
  | none => rw [hci] at h; simp at h
  | some itm =>
      rw [hci] at h
      cases itm with
      | message mid parts => exact ⟨mid, parts, rfl⟩
      | reasoning _ _ _ => simp [kindOf] at h
      | functionCall _ _ _ _ => simp [kindOf] at h

theorem curItem_functionCall (st : AdapterState) (h : curItemKind st = some .functionK) :
    ∃ iid cid nm args, st.curItem = some (.functionCall iid cid nm args) := by
  unfold curItemKind at h
  cases hci : st.curItem with
  | none => rw [hci] at h; simp at h
  | some itm =>
      rw [hci] at h
      cases itm with
      | functionCall iid cid nm args => exact ⟨iid, cid, nm, args, rfl⟩
      | reasoning _ _ _ => simp [kindOf] at h
      | message _ _ => simp [kindOf] at h

/-- Well-formedness is closed under truncation. -/
theorem wfFrom_take :
    ∀ (l : List VendorEvent) (o : Option ItemKind) (k : Nat),
    wfFrom o l = true → wfFrom o (l.take k) = true := by
  intro l
  induction l with
  | nil => intro o k _; simp [List.take_nil, wfFrom]
  | cons e es ih =>
      intro o k h
      cases k with
      | zero => rfl
      | succ k =>
          rw [List.take_succ_cons]
          cases hstep : wfStep o e with
          | none => simp [wfFrom, hstep] at h
          | some o' =>
              simp only [wfFrom, hstep] at h ⊢
              exact ih o' k h

/-- Appending a terminal event does not affect the scan. -/
theorem okFrom_append_terminal (t : EmEvent)
    (ht : t.isErrorEv = true ∨ t.isDoneEv = true) :
    ∀ (l : List EmEvent) (o : Option Int) (n : Int),
    okFrom o n (l ++ [t]) = okFrom o n l := by
  intro l
  induction l with
  | nil =>
      intro o n
      cases t <;> simp_all [okFrom, EmEvent.isErrorEv, EmEvent.isDoneEv]
  | cons e l ih =>
      intro o n
      cases e <;> simp [okFrom, ih]

theorem blockIndex_append (l : List Block) (b : Block) :
    blockIndex (l ++ [b]) = (l.length : Int) := by
  simp only [blockIndex, List.length_append, List.length_cons, List.length_nil]
  omega

theorem cast_length_append (l : List Block) (b : Block) :
    (((l ++ [b]).length : Nat) : Int) = (l.length : Int) + 1 := by
  simp only [List.length_append, List.length_cons, List.length_nil]
  omega

theorem set_ne_nil (l : List Block) (i : Nat) (b : Block) (h : l ≠ []) :
    l.set i b ≠ [] := by
  intro hnil
  apply h
  have h0 : (l.set i b).length = 0 := by rw [hnil]; rfl
  rw [List.length_set] at h0
  exact List.eq_nil_of_length_eq_zero h0

/-- Invariant preservation: draining a well-formed vendor event list from a
coupled state yields an emitted event sequence accepted by the scan. -/
theorem okFrom_processEvents (ctx : Context) (model : ModelInfo) :
    ∀ (es : List VendorEvent) (o : Option ItemKind) (st : AdapterState) (oscan : Option Int)
      (n : Int),
    wfFrom o es = true → Invar o st oscan → n = (st.content.length : Int) →
    okFrom oscan n (processEvents ctx model st es).events = true := by
  intro es
  induction es with
  | nil => intro o st oscan n _ _ _; rfl
  | cons e es ih =>
    intro o st oscan n hwf hinv hn
    simp only [wfFrom] at hwf
    cases hstep : wfStep o e with
    | none => rw [hstep] at hwf; simp at hwf
    | some o' =>
    rw [hstep] at hwf
    replace hwf : wfFrom o' es = true := hwf
    cases e with
    | outputItemAdded item =>
      cases o with
      | some k => cases k <;> simp [wfStep] at hstep
      | none =>
        simp only [wfStep, Option.some.injEq] at hstep
        subst hstep
        have hoscan : oscan = none := hinv
        subst hoscan
        subst hn
        cases item with
        | reasoning rid summ enc =>
          simp only [processEvents, stepEv, List.singleton_append, okFrom,
            blockIndex_append, beq_self_eq_true, Bool.true_and]
          refine ih _ _ _ _ hwf
            ⟨by rw [cast_length_append]; norm_num, by simp, by simp, ?_,
             by simp [curItemKind, kindOf]⟩
            (by rw [cast_length_append])
          unfold lastMatches
          rw [List.getLast?_concat]
          exact rfl
        | message mid parts =>
          simp only [processEvents, stepEv, List.singleton_append, okFrom,
            blockIndex_append, beq_self_eq_true, Bool.true_and]
          refine ih _ _ _ _ hwf
            ⟨by rw [cast_length_append]; norm_num, by simp, by simp, ?_,
             by simp [curItemKind, kindOf]⟩
            (by rw [cast_length_append])
          unfold lastMatches
          rw [List.getLast?_concat]
          exact rfl
        | functionCall iid cid nm args =>
          simp only [processEvents, stepEv, List.singleton_append, okFrom,
            blockIndex_append, beq_self_eq_true, Bool.true_and]
          refine ih _ _ _ _ hwf
            ⟨by rw [cast_length_append]; norm_num, by simp, by simp, ?_,
             by simp [curItemKind, kindOf]⟩
            (by rw [cast_length_append])
          unfold lastMatches
          rw [List.getLast?_concat]
          exact rfl
    | summaryPartAdded text =>
      cases o with
      | none => simp [wfStep] at hstep
      | some k =>
        cases k with
        | messageK => simp [wfStep] at hstep
        | functionK => simp [wfStep] at hstep
        | reasoningK =>
          simp only [wfStep, Option.some.injEq] at hstep
          subst hstep
          obtain ⟨hosc, hcb, hne, hlast, hcik⟩ := hinv
          obtain ⟨rid, summ, enc, hci⟩ := curItem_reasoning st hcik
          simp only [processEvents, stepEv, hci, List.nil_append]
          exact ih _ _ _ _ hwf ⟨hosc, hcb, hne, hlast, by simp [curItemKind, kindOf]⟩ hn
    | summaryTextDelta d =>
      cases o with
      | none => simp [wfStep] at hstep
      | some k =>
        cases k with
        | messageK => simp [wfStep] at hstep
        | functionK => simp [wfStep] at hstep
        | reasoningK =>
          simp only [wfStep, Option.some.injEq] at hstep
          subst hstep
          obtain ⟨hosc, hcb, hne, hlast, hcik⟩ := hinv
          obtain ⟨rid, summ, enc, hci⟩ := curItem_reasoning st hcik
          obtain ⟨t, sig, hgl⟩ := lastMatches_reasoning _ hlast
          have hget : st.content[st.content.length - 1]? = some (.thinking t sig) := by
            rw [← List.getLast?_eq_getElem?]; exact hgl
          subst hosc
          cases hse : summ.isEmpty with
          | true =>
              simp only [processEvents, stepEv, hci, hcb, hget, hse, if_true, List.nil_append]
              exact ih _ _ _ _ hwf ⟨rfl, hcb, hne, hlast, hcik⟩ hn
          | false =>
              simp only [processEvents, stepEv, hci, hcb, hget, hse, Bool.false_eq_true,
                if_false, List.singleton_append, okFrom, blockIndex, beq_self_eq_true,
                Bool.true_and]
              refine ih _ _ _ _ hwf
                ⟨by simp [List.length_set], by simp [List.length_set, hcb],
                 set_ne_nil _ _ _ hne, ?_, by simp [curItemKind, kindOf]⟩
                (by rw [List.length_set]; exact hn)
              unfold lastMatches
              rw [getLast?_set_last _ _ hne]
              exact rfl
    | summaryPartDone =>
      cases o with
      | none => simp [wfStep] at hstep
      | some k =>
        cases k with
        | messageK => simp [wfStep] at hstep
        | functionK => simp [wfStep] at hstep
        | reasoningK =>
          simp only [wfStep, Option.some.injEq] at hstep
          subst hstep
          obtain ⟨hosc, hcb, hne, hlast, hcik⟩ := hinv
          obtain ⟨rid, summ, enc, hci⟩ := curItem_reasoning st hcik
          obtain ⟨t, sig, hgl⟩ := lastMatches_reasoning _ hlast
          have hget : st.content[st.content.length - 1]? = some (.thinking t sig) := by
            rw [← List.getLast?_eq_getElem?]; exact hgl
          subst hosc
          cases hse : summ.isEmpty with
          | true =>
              simp only [processEvents, stepEv, hci, hcb, hget, hse, if_true, List.nil_append]
              exact ih _ _ _ _ hwf ⟨rfl, hcb, hne, hlast, hcik⟩ hn
          | false =>
              simp only [processEvents, stepEv, hci, hcb, hget, hse, Bool.false_eq_true,
                if_false, List.singleton_append, okFrom, blockIndex, beq_self_eq_true,
                Bool.true_and]
              refine ih _ _ _ _ hwf
                ⟨by simp [List.length_set], by simp [List.length_set, hcb],
                 set_ne_nil _ _ _ hne, ?_, by simp [curItemKind, kindOf]⟩
                (by rw [List.length_set]; exact hn)
              unfold lastMatches
              rw [getLast?_set_last _ _ hne]
              exact rfl
    | contentPartAdded part =>
      cases o with
      | none => simp [wfStep] at hstep
      | some k =>
        cases k with
        | reasoningK => simp [wfStep] at hstep
        | functionK => simp [wfStep] at hstep
        | messageK =>
          simp only [wfStep, Option.some.injEq] at hstep
          subst hstep
          obtain ⟨hosc, hcb, hne, hlast, hcik⟩ := hinv
          obtain ⟨mid, parts, hci⟩ := curItem_message st hcik
          simp only [processEvents, stepEv, hci, List.nil_append]
          exact ih _ _ _ _ hwf ⟨hosc, hcb, hne, hlast, by simp [curItemKind, kindOf]⟩ hn
    | outputTextDelta d =>
      cases o with
      | none => simp [wfStep] at hstep
      | some k =>
        cases k with
        | reasoningK => simp [wfStep] at hstep
        | functionK => simp [wfStep] at hstep
        | messageK =>
          simp only [wfStep, Option.some.injEq] at hstep
          subst hstep
          obtain ⟨hosc, hcb, hne, hlast, hcik⟩ := hinv
          obtain ⟨mid, parts, hci⟩ := curItem_message st hcik
          obtain ⟨t, sig, hgl⟩ := lastMatches_message _ hlast
          have hget : st.content[st.content.length - 1]? = some (.text t sig) := by
            rw [← List.getLast?_eq_getElem?]; exact hgl
          subst hosc
          cases hpl : parts.getLast? with
          | none =>
              simp only [processEvents, stepEv, hci, hcb, hget, hpl, List.nil_append]
              exact ih _ _ _ _ hwf ⟨rfl, hcb, hne, hlast, hcik⟩ hn
          | some p =>
            cases p with
            | refusal r =>
                simp only [processEvents, stepEv, hci, hcb, hget, hpl, List.nil_append]
                exact ih _ _ _ _ hwf ⟨rfl, hcb, hne, hlast, hcik⟩ hn
            | outputText s =>
                simp only [processEvents, stepEv, hci, hcb, hget, hpl,
                  List.singleton_append, okFrom, blockIndex, beq_self_eq_true, Bool.true_and]
                refine ih _ _ _ _ hwf
                  ⟨by simp [List.length_set], by simp [List.length_set, hcb],
                   set_ne_nil _ _ _ hne, ?_, by simp [curItemKind, kindOf]⟩
                  (by rw [List.length_set]; exact hn)
                unfold lastMatches
                rw [getLast?_set_last _ _ hne]
                exact rfl
    | refusalDelta d =>
      cases o with
      | none => simp [wfStep] at hstep
      | some k =>
        cases k with
        | reasoningK => simp [wfStep] at hstep
        | functionK => simp [wfStep] at hstep
        | messageK =>
          simp only [wfStep, Option.some.injEq] at hstep
          subst hstep
          obtain ⟨hosc, hcb, hne, hlast, hcik⟩ := hinv
          obtain ⟨mid, parts, hci⟩ := curItem_message st hcik
          obtain ⟨t, sig, hgl⟩ := lastMatches_message _ hlast
          have hget : st.content[st.content.length - 1]? = some (.text t sig) := by
            rw [← List.getLast?_eq_getElem?]; exact hgl
          subst hosc
          cases hpl : parts.getLast? with
          | none =>
              simp only [processEvents, stepEv, hci, hcb, hget, hpl, List.nil_append]
              exact ih _ _ _ _ hwf ⟨rfl, hcb, hne, hlast, hcik⟩ hn
          | some p =>
            cases p with
            | outputText s =>
                simp only [processEvents, stepEv, hci, hcb, hget, hpl, List.nil_append]
                exact ih _ _ _ _ hwf ⟨rfl, hcb, hne, hlast, hcik⟩ hn
            | refusal r =>
                simp only [processEvents, stepEv, hci, hcb, hget, hpl,
                  List.singleton_append, okFrom, blockIndex, beq_self_eq_true, Bool.true_and]
                refine ih _ _ _ _ hwf
                  ⟨by simp [List.length_set], by simp [List.length_set, hcb],
                   set_ne_nil _ _ _ hne, ?_, by simp [curItemKind, kindOf]⟩
                  (by rw [List.length_set]; exact hn)
                unfold lastMatches
                rw [getLast?_set_last _ _ hne]
                exact rfl
    | funcArgsDelta d =>
      cases o with
      | none => simp [wfStep] at hstep
      | some k =>
        cases k with
        | reasoningK => simp [wfStep] at hstep
        | messageK => simp [wfStep] at hstep
        | functionK =>
          simp only [wfStep, Option.some.injEq] at hstep
          subst hstep
          obtain ⟨hosc, hcb, hne, hlast, hcik⟩ := hinv
          obtain ⟨iid, cid, nm, args, hci⟩ := curItem_functionCall st hcik
          obtain ⟨tid, tnm, targs, pj, hgl⟩ := lastMatches_functionCall _ hlast
          have hget : st.content[st.content.length - 1]? = some (.toolCall tid tnm targs pj) := by
            rw [← List.getLast?_eq_getElem?]; exact hgl
          subst hosc
          simp only [processEvents, stepEv, hci, hcb, hget,
            List.singleton_append, okFrom, blockIndex, beq_self_eq_true, Bool.true_and]
          refine ih _ _ _ _ hwf
            ⟨by simp [List.length_set], by simp [List.length_set, hcb],
             set_ne_nil _ _ _ hne, ?_, by simp [curItemKind, kindOf]⟩
            (by rw [List.length_set]; exact hn)
          unfold lastMatches
          rw [getLast?_set_last _ _ hne]
          exact rfl
    | outputItemDone item =>
      cases o with
      | none => simp [wfStep] at hstep
      | some k =>
        simp only [wfStep] at hstep
        by_cases hk : kindOf item = k
        case neg => rw [if_neg hk] at hstep; simp at hstep
        case pos =>
        rw [if_pos hk] at hstep
        injection hstep with hstep
        subst hstep
        obtain ⟨hosc, hcb, hne, hlast, hcik⟩ := hinv
        subst hosc
        cases item with
        | reasoning rid summ enc =>
          have hkk : k = ItemKind.reasoningK := by rw [← hk]; rfl
          subst hkk
          obtain ⟨t, sig, hgl⟩ := lastMatches_reasoning _ hlast
          have hget : st.content[st.content.length - 1]? = some (.thinking t sig) := by
            rw [← List.getLast?_eq_getElem?]; exact hgl
          simp only [processEvents, stepEv, hcb, hget,
            List.singleton_append, okFrom, blockIndex, beq_self_eq_true, Bool.true_and]
          exact ih _ _ _ _ hwf rfl (by rw [List.length_set]; exact hn)
        | message mid parts =>
          have hkk : k = ItemKind.messageK := by rw [← hk]; rfl
          subst hkk
          obtain ⟨t, sig, hgl⟩ := lastMatches_message _ hlast
          have hget : st.content[st.content.length - 1]? = some (.text t sig) := by
            rw [← List.getLast?_eq_getElem?]; exact hgl
          simp only [processEvents, stepEv, hcb, hget,
            List.singleton_append, okFrom, blockIndex, beq_self_eq_true, Bool.true_and]
          exact ih _ _ _ _ hwf rfl (by rw [List.length_set]; exact hn)
        | functionCall iid cid nm args =>
          cases hjp : jsonParse args with
          | none => simp only [processEvents, stepEv, hjp]; rfl
          | some parsed =>
              simp only [processEvents, stepEv, hjp,
                List.singleton_append, okFrom, blockIndex, beq_self_eq_true, Bool.true_and]
              exact ih _ _ _ _ hwf rfl hn
    | completed status usage =>
      cases o with
      | some k => cases k <;> simp [wfStep] at hstep
      | none =>
        simp only [wfStep, Option.some.injEq] at hstep
        subst hstep
        have hoscan : oscan = none := hinv
        subst hoscan
        cases he : stepEv ctx model st (.completed status usage) with
        | error e => exact absurd he (stepEv_completed_ne_error _ _ _ _ _ _)
        | ok p =>
            obtain ⟨hev, hcontent, _⟩ := stepEv_completed_state _ _ _ _ _ _ _ he
            simp only [processEvents, he, hev, List.nil_append]
            exact ih _ _ _ _ hwf rfl (by rw [hcontent]; exact hn)
    | errorEvent code message =>
      simp only [processEvents, stepEv]
      rfl
    | failed =>
      simp only [processEvents, stepEv]
      rfl

/-- C4: in every event sequence the adapter emits for a well-formed vendor
stream (items properly bracketed by `output_item.added`/`done`), the Nth
block opened carries `contentIndex` N−1, indices are strictly increasing
and never reused, at most one block is open at any instant (no block starts
before the previous block's end), and every delta/end event refers to the
open block — the property checked by `okEvents`. -/
theorem block_lifecycle_invariant (model : ModelInfo) (ctx : Context)
    (events : List VendorEvent) (aborted : Bool) (cut : Option (Nat × String))
    (hwf : wfVendor events = true) :
    okEvents (runAdapter model ctx events aborted cut) = true := by
  have hwfc : wfFrom none (consumedEvents events cut) = true := by
    cases cut with
    | none => exact hwf
    | some kv =>
        obtain ⟨k, m⟩ := kv
        exact wfFrom_take events none k hwf
  have hloop : okFrom none 0 (runLoop model ctx events cut).events = true := by
    refine okFrom_processEvents ctx model (consumedEvents events cut) none initState none 0
      hwfc rfl (by simp [initState])
  have hterm : ∀ (t : EmEvent), t.isErrorEv = true ∨ t.isDoneEv = true →
      okFrom none 0 ((EmEvent.start :: (runLoop model ctx events cut).events) ++ [t]) = true := by
    intro t ht
    rw [okFrom_append_terminal t ht]
    simpa [okFrom] using hloop
  cases hthrow : runThrowMsg model ctx events aborted cut with
  | some m =>
      rw [runAdapter_error_of_throw model ctx events aborted cut m hthrow]
      unfold okEvents
      refine hterm _ (Or.inl ?_)
      rfl
  | none =>
      rw [runAdapter_done_of_no_throw model ctx events aborted cut hthrow]
      unfold okEvents
      refine hterm _ (Or.inr ?_)
      rfl

theorem block_lifecycle_invariant_witness :
    wfVendor c4Events = true ∧
    okEvents (runAdapter testModel emptyCtx c4Events false none) = true :=
  ⟨rfl, block_lifecycle_invariant testModel emptyCtx c4Events false none rfl⟩

/-! ## Claim C5: Scenario A (text + tool call) -/

/-- C5 counterexample: the finalized tool-call content block still carries
the non-canonical `partialJson` accumulator (the `output_item.done` handler
builds the strictly-parsed, validated tool call only for the
`toolcall_end` event payload and never writes it back into the content
block), so the finalized content does not equal the claimed canonical
blocks with no extra non-canonical fields. -/
theorem scenarioA_content_counterexample :
    ((c5Msg.content[1]?).map Block.partialJsonOf) = some (some "\x7b\"q\":\"x\"\x7d") ∧
    c5Msg.content ≠ [Block.text "Hello" (some "msg_1"),
      Block.toolCall "call_1|fc_1" "lookup" (.obj [("q", .str "x")]) none] := by
  refine ⟨rfl, ?_⟩
  intro h
  have h2 := congrArg (fun l => (l[1]?).map Block.partialJsonOf) h
  exact absurd h2 (by decide)

/-- C5 (amended): on Scenario A the finalized content is the text block
`"Hello"` (carrying its vendor message id as `textSignature`) and the
tool-call block with the composite id, the incrementally-parsed arguments
`{q: "x"}` — equal in value to the strict parse — and the retained
`partialJson` accumulator; the stop reason is `toolUse`; the
`toolcall_end` event carries the strictly-parsed canonical tool call. -/
theorem scenarioA_run_amended :
    c5Msg.content = [Block.text "Hello" (some "msg_1"),
      Block.toolCall "call_1|fc_1" "lookup" (.obj [("q", .str "x")])
        (some "\x7b\"q\":\"x\"\x7d")] ∧
    c5Msg.stopReason = .toolUse ∧
    c5Run[7]? = some (.toolcallEnd 1
      (Block.toolCall "call_1|fc_1" "lookup" (.obj [("q", .str "x")]) none)) ∧
    c5Msg.usage.input = 10 ∧ c5Msg.usage.output = 5 :=
  ⟨rfl, rfl, rfl, rfl, rfl⟩

/-! ## Claim C6: unrecognized event shapes -/

/-- C6 counterexample: a text delta arriving while no item is open is
silently dropped — the run emits no `error` event at all and finishes with
`done`, contradicting the claim that such an event surfaces a
ProtocolError as the payload of a terminal `error` event. -/
theorem unrecognized_delta_no_error :
    countErrors (runAdapter testModel emptyCtx [.outputTextDelta "x"] false none) = 0 ∧
    runAdapter testModel emptyCtx [.outputTextDelta "x"] false none =
      [.start, .done .stop (buildMessage testModel initState none)] :=
  ⟨rfl, rfl⟩

/-- C6 (amended): a delta (or part) event whose shape the state machine
does not recognize for the current cursor state is silently ignored: the
adapter pushes no canonical event, leaves its state unchanged, and raises
no error; the stream continues. Stated for the no-open-item cursor state. -/
theorem unrecognized_delta_ignored (ctx : Context) (model : ModelInfo) (st : AdapterState)
    (d : String) (h : st.curItem = none) :
    stepEv ctx model st (.outputTextDelta d) = .ok (st, []) ∧
    stepEv ctx model st (.refusalDelta d) = .ok (st, []) ∧
    stepEv ctx model st (.funcArgsDelta d) = .ok (st, []) ∧
    stepEv ctx model st (.summaryTextDelta d) = .ok (st, []) ∧
    stepEv ctx model st .summaryPartDone = .ok (st, []) ∧
    stepEv ctx model st (.contentPartAdded (.outputText d)) = .ok (st, []) ∧
    stepEv ctx model st (.summaryPartAdded d) = .ok (st, []) := by
  refine ⟨?_, ?_, ?_, ?_, ?_, ?_, ?_⟩ <;> simp [stepEv, h]

theorem unrecognized_delta_ignored_witness :
    initState.curItem = none ∧
    stepEv emptyCtx testModel initState (.outputTextDelta "x") = .ok (initState, []) :=
  ⟨rfl, (unrecognized_delta_ignored emptyCtx testModel initState "x" rfl).1⟩

/-! ## Claim C7: maxTokens expansion in streamSimple/completeSimple -/

/-- C7 counterexample: a caller-specified `maxTokens` of 50000 against a
model ceiling of 8192 is passed through as 50000 — the source computes
`options?.maxTokens || Math.min(model.maxTokens, 32000)`, so the minimum
with the model ceiling is taken only when the caller specifies nothing —
while the claim demands min(caller, ceiling) = 8192. -/
theorem maxTokens_no_clamp_counterexample :
    (mapOptionsForApi c7Model (some ⟨none, some 50000, none⟩)).maxTokens = 50000 ∧
    min (50000 : Int) c7Model.maxTokens = 8192 ∧ (50000 : Int) ≠ 8192 :=
  ⟨rfl, by decide, by decide⟩

/-- C7 (amended): the expanded `maxTokens` equals the caller's value
whenever the caller specifies a nonzero `maxTokens` (no clamping to the
model ceiling occurs); only when the caller specifies none (or the falsy
0) does it default to `min(model.maxTokens, 32000)`. -/
theorem maxTokens_mapping_amended (model : ModelInfo) (o : SimpleOptions) (m : Int)
    (hm : o.maxTokens = some m) (h0 : m ≠ 0) :
    (mapOptionsForApi model (some o)).maxTokens = m ∧
    (mapOptionsForApi model none).maxTokens = min model.maxTokens 32000 := by
  constructor
  · unfold mapOptionsForApi
    cases model.api <;> cases hr : o.reasoning <;>
      simp [jsOrInt, hm, h0, hr, Option.bind]
  · unfold mapOptionsForApi
    cases model.api <;> simp [jsOrInt, Option.bind]

theorem maxTokens_mapping_amended_witness :
    ((⟨none, some 1000, none⟩ : SimpleOptions).maxTokens = some 1000 ∧ (1000 : Int) ≠ 0) ∧
    (mapOptionsForApi testModel (some ⟨none, some 1000, none⟩)).maxTokens = 1000 ∧
    (mapOptionsForApi testModel none).maxTokens = min testModel.maxTokens 32000 := by
  have h := maxTokens_mapping_amended testModel ⟨none, some 1000, none⟩ 1000 rfl (by decide)
  exact ⟨⟨rfl, by decide⟩, h.1, h.2⟩

/-! ## Claim C8: reasoning budget mapping -/

/-- C8: the reasoning budget mapping is a total function of model family
and effort: effort `medium` maps to exactly 8192 for the Anthropic table
and for the Google 2.5-pro/2.5-flash families, and a Google model whose id
matches no known family maps every effort to the dynamic sentinel `-1`
rather than failing. -/
theorem reasoning_budget_mapping
    (am gm : ModelInfo) (o : SimpleOptions)
    (ham : am.api = .anthropicMessages) (hgm : gm.api = .googleGenerativeAI)
    (hr : o.reasoning = some .medium) :
    (mapOptionsForApi am (some o)).thinking = some (true, 8192) ∧
    ((jsIncludes gm.id "2.5-pro" = true ∨ jsIncludes gm.id "2.5-flash" = true) →
      getGoogleBudget gm .medium = 8192) ∧
    ((jsIncludes gm.id "2.5-pro" = false ∧ jsIncludes gm.id "2.5-flash" = false) →
      ∀ e : ReasoningEffort, getGoogleBudget gm e = -1) ∧
    ((jsIncludes gm.id "2.5-pro" = false ∧ jsIncludes gm.id "2.5-flash" = false) →
      (mapOptionsForApi gm (some o)).thinking = some (true, -1)) := by
  refine ⟨?_, ?_, ?_, ?_⟩
  · unfold mapOptionsForApi
    rw [ham]
    simp [hr, anthropicBudgets, Option.bind]
  · intro h
    unfold getGoogleBudget
    rcases h with h | h
    · simp [h]
    · by_cases hp : jsIncludes gm.id "2.5-pro" = true
      · simp [hp]
      · have hp' : jsIncludes gm.id "2.5-pro" = false := by
          revert hp; cases jsIncludes gm.id "2.5-pro" <;> simp
        simp [hp', h]
  · intro h e
    unfold getGoogleBudget
    simp [h.1, h.2]
  · intro h
    unfold mapOptionsForApi
    rw [hgm]
    simp [hr, getGoogleBudget, h.1, h.2, Option.bind]

theorem reasoning_budget_mapping_witness :
    (anthroModel.api = .anthropicMessages ∧ googleProModel.api = .googleGenerativeAI ∧
      (⟨none, none, some .medium⟩ : SimpleOptions).reasoning = some .medium) ∧
    (mapOptionsForApi anthroModel (some ⟨none, none, some .medium⟩)).thinking
      = some (true, 8192) ∧
    getGoogleBudget googleProModel .medium = 8192 ∧
    getGoogleBudget googleUnknownModel .high = -1 ∧
    (mapOptionsForApi googleUnknownModel (some ⟨none, none, some .medium⟩)).thinking
      = some (true, -1) := by
  have h1 := reasoning_budget_mapping anthroModel googleProModel
    ⟨none, none, some .medium⟩ rfl rfl rfl
  have h2 := reasoning_budget_mapping anthroModel googleUnknownModel
    ⟨none, none, some .medium⟩ rfl rfl rfl
  refine ⟨⟨rfl, rfl, rfl⟩, h1.1, ?_, ?_, ?_⟩
  · exact h1.2.1 (Or.inl rfl)
  · exact (h2.2.2.1 ⟨rfl, rfl⟩) .high
  · exact h2.2.2.2 ⟨rfl, rfl⟩

/-! ## Claim C9: replay tokens for thinking blocks -/

/-- C9 counterexample: the claim demands the stored reasoning item be
re-sent for *every* assistant message in the history, but `convertMessages`
skips thinking blocks of a message whose `stopReason` is `"error"`: the
converted input of this history is empty, so the item is not re-sent. -/
theorem error_thinking_not_resent :
    convertMessages testModel ⟨none, [.assistant c9ErrMsg], none⟩ false = [] ∧
    ¬ RInput.reasoningItem c9Item ∈
        convertMessages testModel ⟨none, [.assistant c9ErrMsg], none⟩ false := by
  refine ⟨rfl, ?_⟩
  intro h
  have h0 : convertMessages testModel ⟨none, [.assistant c9ErrMsg], none⟩ false = [] := rfl
  rw [h0] at h
  exact List.not_mem_nil _ h

/-- C9 (amended): (i) closing a vendor reasoning item stores the completed
item verbatim as the thinking block's replay signature (the
`JSON.stringify`/`JSON.parse` round trip is modelled as identity storage);
(ii) for every assistant message in the history whose `stopReason` is not
`error`, every thinking block with a stored signature is re-sent as the
identical reasoning item on the next turn. Thinking blocks of
error-stopped messages, and blocks with no stored signature, are omitted
(see the counterexample). -/
theorem replay_token_roundtrip_amended :
    (∀ (ctx : Context) (model : ModelInfo) (st : AdapterState) (i : Nat)
       (rid : String) (summ : List String) (enc : Option String) (t : String)
       (sig : Option VendorItem),
       st.curBlock = some i → st.content[i]? = some (.thinking t sig) →
       stepEv ctx model st (.outputItemDone (.reasoning rid summ enc)) =
         .ok ({ st with
                 content := st.content.set i
                   (.thinking (String.intercalate "\n\n" summ)
                     (some (.reasoning rid summ enc))),
                 curBlock := none },
              [.thinkingEnd (blockIndex st.content) (String.intercalate "\n\n" summ)])) ∧
    (∀ (model : ModelInfo) (sys : Option String) (msgs : List Message)
       (tools : Option (List ToolDef)) (skip : Bool) (msg : AssistantMsg)
       (t : String) (item : VendorItem),
       Message.assistant msg ∈ msgs → msg.stopReason ≠ .error →
       Block.thinking t (some item) ∈ msg.content →
       RInput.reasoningItem item ∈ convertMessages model ⟨sys, msgs, tools⟩ skip) := by
  constructor
  · intro ctx model st i rid summ enc t sig hcb hget
    simp [stepEv, hcb, hget]
  · intro model sys msgs tools skip msg t item hmsg hsr hblk
    unfold convertMessages transformMessages
    refine List.mem_append_right _ ?_
    rw [List.mem_flatten]
    refine ⟨convertMessage model (.assistant msg), List.mem_map_of_mem _ hmsg, ?_⟩
    unfold convertMessage
    rw [List.mem_flatten]
    refine ⟨convertAssistantBlock msg.stopReason (.thinking t (some item)),
      List.mem_map_of_mem _ hblk, ?_⟩
    simp [convertAssistantBlock, hsr]

theorem replay_token_roundtrip_amended_witness :
    (c9St.curBlock = some 0 ∧ c9St.content[0]? = some (.thinking "" none)) ∧
    stepEv emptyCtx testModel c9St (.outputItemDone (.reasoning "rs_1" ["because"] (some "enc"))) =
      .ok ({ c9St with
              content := c9St.content.set 0
                (.thinking (String.intercalate "\n\n" ["because"]) (some c9Item)),
              curBlock := none },
           [.thinkingEnd (blockIndex c9St.content) (String.intercalate "\n\n" ["because"])]) ∧
    RInput.reasoningItem c9Item ∈
      convertMessages testModel ⟨none, [.assistant c9OkMsg], none⟩ false := by
  have h := replay_token_roundtrip_amended
  refine ⟨⟨rfl, rfl⟩,
    h.1 emptyCtx testModel c9St 0 "rs_1" ["because"] (some "enc") "" none rfl rfl, ?_⟩
  exact h.2 testModel none [.assistant c9OkMsg] none false c9OkMsg "because" c9Item
    (List.mem_singleton.mpr rfl) (by decide) (List.mem_singleton.mpr rfl)

/-! ## Claim C10: composite tool-call identifiers -/

theorem splitPipeChars_ne_nil : ∀ (l : List Char), splitPipeChars l ≠ [] := by
  intro l
  cases l with
  | nil => simp [splitPipeChars]
  | cons c cs =>
      simp only [splitPipeChars]
      by_cases hc : c = '|'
      · simp [hc]
      · simp only [if_neg hc]
        cases h : splitPipeChars cs <;> simp

theorem splitPipeChars_no_pipe : ∀ (l : List Char), '|' ∉ l → splitPipeChars l = [l] := by
  intro l
  induction l with
  | nil => intro _; rfl
  | cons c cs ih =>
      intro h
      have hc : c ≠ '|' := fun hh => h (hh ▸ List.mem_cons_self c cs)
      have hcs : '|' ∉ cs := fun hm => h (List.mem_cons_of_mem _ hm)
      simp only [splitPipeChars, if_neg hc, ih hcs]

theorem splitPipeChars_append (b : List Char) :
    ∀ (a : List Char), '|' ∉ a →
    splitPipeChars (a ++ '|' :: b) = a :: splitPipeChars b := by
  intro a
  induction a with
  | nil => intro _; simp [splitPipeChars]
  | cons c cs ih =>
      intro h
      have hc : c ≠ '|' := fun hh => h (hh ▸ List.mem_cons_self c cs)
      have hcs : '|' ∉ cs := fun hm => h (List.mem_cons_of_mem _ hm)
      simp only [List.cons_append, List.append_eq, splitPipeChars, if_neg hc, ih hcs]

theorem toList_pipe_append (x y : String) :
    (x ++ "|" ++ y).toList = x.toList ++ '|' :: y.toList := by
  show (x ++ "|" ++ y).data = x.data ++ '|' :: y.data
  rw [String.data_append, String.data_append]
  have hmid : "|".data = ['|'] := rfl
  rw [hmid, List.append_assoc]
  rfl

theorem pipeFirst_append (x y : String) (hx : '|' ∉ x.toList) :
    pipeFirst (x ++ "|" ++ y) = x := by
  unfold pipeFirst jsSplitPipe
  rw [toList_pipe_append, splitPipeChars_append _ _ hx, List.map_cons]
  simp only [List.getElem?_cons_zero, Option.getD_some]
  rfl

theorem pipeSecond_append (x y : String) (hx : '|' ∉ x.toList) (hy : '|' ∉ y.toList) :
    pipeSecond (x ++ "|" ++ y) = some y := by
  unfold pipeSecond jsSplitPipe
  rw [toList_pipe_append, splitPipeChars_append _ _ hx, splitPipeChars_no_pipe _ hy,
    List.map_cons, List.map_cons]
  simp only [List.getElem?_cons_succ, List.getElem?_cons_zero]
  rfl

/-- C10 counterexample: for the composite id `"call1|a|b"` (call_id
`"call1"`, item id `"a|b"` — the claim's proviso, a pipe-free call_id,
holds), conversion re-sends item id `"a"`, not the original `"a|b"`:
`id.split("|")[1]` keeps only the segment up to the next `|`. -/
theorem pipe_item_id_truncated :
    convertMessages testModel ⟨none, [.assistant c10Msg], none⟩ false =
      [.functionCall (some "a") "call1" "lookup" "\x7b\x7d"] ∧
    ("a" : String) ≠ "a|b" :=
  ⟨rfl, by decide⟩

/-- C10 (amended): the adapter assigns every tool call the composite id
`call_id ++ "|" ++ item_id`; converting a history containing the call (or
a tool result answering it) back to vendor input recovers exactly the
original call_id and item id, provided *neither* contains a `|` character
(the claim's proviso covered only the call_id; see the counterexample). -/
theorem toolcall_id_roundtrip_amended
    (callId itemId : String) (hc : '|' ∉ callId.toList) (hi : '|' ∉ itemId.toList) :
    (∀ (ctx : Context) (model : ModelInfo) (st : AdapterState) (nm args : String),
      stepEv ctx model st (.outputItemAdded (.functionCall itemId callId nm args)) =
        .ok ({ st with
                content := st.content ++
                  [.toolCall (callId ++ "|" ++ itemId) nm (.obj []) (some args)],
                curItem := some (.functionCall itemId callId nm args),
                curBlock := some st.content.length },
             [.toolcallStart (blockIndex (st.content ++
                [.toolCall (callId ++ "|" ++ itemId) nm (.obj []) (some args)]))])) ∧
    pipeFirst (callId ++ "|" ++ itemId) = callId ∧
    pipeSecond (callId ++ "|" ++ itemId) = some itemId ∧
    (∀ (model : ModelInfo) (msg : AssistantMsg) (nm : String) (args : Json)
       (pj : Option String),
      msg.stopReason ≠ .error →
      Block.toolCall (callId ++ "|" ++ itemId) nm args pj ∈ msg.content →
      RInput.functionCall (some itemId) callId nm (Json.render args) ∈
        convertMessage model (.assistant msg)) ∧
    (∀ (model : ModelInfo) (tn : String) (content : List UserPart) (isErr : Bool),
      ((convertMessage model (.toolResult (callId ++ "|" ++ itemId) tn content isErr)).head?).bind
        RInput.callIdOf = some callId) := by
  refine ⟨?_, pipeFirst_append _ _ hc, pipeSecond_append _ _ hc hi, ?_, ?_⟩
  · intro ctx model st nm args
    rfl
  · intro model msg nm args pj hsr hblk
    unfold convertMessage
    rw [List.mem_flatten]
    refine ⟨convertAssistantBlock msg.stopReason (.toolCall (callId ++ "|" ++ itemId) nm args pj),
      List.mem_map_of_mem _ hblk, ?_⟩
    simp [convertAssistantBlock, hsr, pipeFirst_append _ _ hc, pipeSecond_append _ _ hc hi]
  · intro model tn content isErr
    simp only [convertMessage, List.cons_append, List.head?_cons, Option.some_bind]
    simp [RInput.callIdOf, pipeFirst_append _ _ hc]

theorem toolcall_id_roundtrip_amended_witness :
    ('|' ∉ "call_1".toList ∧ '|' ∉ "fc_1".toList) ∧
    pipeFirst ("call_1" ++ "|" ++ "fc_1") = "call_1" ∧
    pipeSecond ("call_1" ++ "|" ++ "fc_1") = some "fc_1" := by
  have h := toolcall_id_roundtrip_amended "call_1" "fc_1" (by decide) (by decide)
  exact ⟨⟨by decide, by decide⟩, h.2.1, h.2.2.1⟩

end PiMono
